import Mathlib

/-!
# Verification of the concordium-node networking and codec layer

A shallow embedding, in Lean 4, of the parts of the `concordium-node`
repository that the specification's claims are about:

* the block / transaction / catch-up-status binary codec
  (`concordium-global-state/src/{block,transaction,common,catch_up}.rs`),
* the per-connection framing state machine
  (`src/connection/connection.rs`), and
* the consensus-bridge dispatch and handshake catch-up callback
  (`src/bin/cli.rs`).

Bytes are modelled as `List Nat` with every element `< 256` by construction
of the writers; machine integers are `Nat` with explicit `% 2^w` where the
Rust code can overflow.  Fallible Rust code (`failure::Fallible`) is modelled
by the `Res` monad below, which also has a distinguished `panic` outcome for
`unreachable!()` / `unimplemented!()` / slice-out-of-range, so that a panic is
never conflated with an `Err` return.
-/

namespace Spec2Proof

/-- A byte string: a list of byte values (each `< 256` for values produced by
the writers in this file). -/
abbrev Bytes := List Nat

/-- Error values returned through `failure::Fallible` by the codec code.
Each constructor corresponds to one `bail!` / `ensure!` / `format_err!` site
of the source (or to the failure of one of the reading macros). -/
inductive CodecErr where
  /-- a read macro (`read_ty!` / `read_sized!` / `read_const_sized!`) ran past
  the end of the input -/
  | truncated : CodecErr
  /-- a length prefix exceeded its protocol cap (`safe_get_len!` /
  `read_multiple!`) -/
  | lenOverCap : CodecErr
  /-- `SchemeId::try_from` received an unknown scheme id byte -/
  | unknownSchemeId : CodecErr
  /-- `Nonce::try_from(0)`: "A zero nonce was received!" -/
  | zeroNonce : CodecErr
  /-- `TransactionType::try_from` received an unsupported tag -/
  | unknownTransactionType : CodecErr
  /-- `Transaction::deserialize`: "The payload size exceeds the protocol
  limit!" -/
  | payloadTooBig : CodecErr
  /-- `TransactionPayload::deserialize` (InitContract): "malformed transaction
  param!" -/
  | malformedParam : CodecErr
  /-- `TransactionPayload::deserialize` (Update): "malformed transaction
  message!" -/
  | malformedMessage : CodecErr
deriving DecidableEq, Repr

/-- Panic sites reachable from the embedded code. -/
inductive PanicKind where
  /-- `unimplemented!()` for the transaction payload variants whose codec is
  not written yet -/
  | unimplementedVariant : PanicKind
  /-- `unreachable!()` in `hash_without_timestamps`: "GenesisData will never
  be transformed into a Pending Block" -/
  | genesisPendingBlock : PanicKind
deriving DecidableEq, Repr

/-- Outcome of running a `Fallible` Rust computation: a value, an error
carried by `failure::Error`, or a panic (which in Rust aborts the thread and
is *not* an `Err`). -/
inductive Res (α : Type) where
  | ok : α → Res α
  | err : CodecErr → Res α
  | panic : PanicKind → Res α
deriving DecidableEq, Repr

namespace Res

/-- Sequencing of fallible computations: both errors and panics
short-circuit, mirroring `?` propagation and panic unwinding. -/
def bind {α β : Type} : Res α → (α → Res β) → Res β
  | .ok a, f => f a
  | .err e, _ => .err e
  | .panic p, _ => .panic p

instance : Monad Res where
  pure := Res.ok
  bind := Res.bind

@[simp] theorem bind_ok {α β : Type} (a : α) (f : α → Res β) :
    Res.bind (.ok a) f = f a := rfl

@[simp] theorem bind_err {α β : Type} (e : CodecErr) (f : α → Res β) :
    Res.bind (.err e) f = .err e := rfl

@[simp] theorem bind_panic {α β : Type} (p : PanicKind) (f : α → Res β) :
    Res.bind (.panic p) f = .panic p := rfl

@[simp] theorem monadBind_eq {α β : Type} (x : Res α) (f : α → Res β) :
    (x >>= f) = Res.bind x f := rfl

@[simp] theorem pure_eq {α : Type} (a : α) : (pure a : Res α) = .ok a := rfl

end Res

/-! ## Big-endian integers

`byteorder::NetworkEndian` reads and writes big-endian; `beBytes k n` is the
`k`-byte big-endian encoding of `n % 2^(8*k)` and `beToNat` its inverse. -/

/-- Big-endian encoding of `n` on `k` bytes (the writer side of
`write_u16/u32/u64::<NetworkEndian>`; Rust truncates to the integer width,
modelled by the `% 256` at each position). -/
def beBytes : Nat → Nat → Bytes
  | 0, _ => []
  | k + 1, n => (n / 256 ^ k) % 256 :: beBytes k (n % 256 ^ k)

/-- Big-endian decoding (the reader side of `read_u16/u32/u64`). -/
def beToNat : Bytes → Nat
  | [] => 0
  | b :: bs => b * 256 ^ bs.length + beToNat bs

@[simp] theorem beBytes_length (k n : Nat) : (beBytes k n).length = k := by
  induction k generalizing n with
  | zero => rfl
  | succ k ih => simp [beBytes, ih]

theorem beToNat_beBytes (k n : Nat) : beToNat (beBytes k n) = n % 256 ^ k := by
  induction k generalizing n with
  | zero => simp [beBytes, beToNat, Nat.mod_one]
  | succ k ih =>
    rw [beBytes, beToNat, beBytes_length, ih]
    have h2 : n % 256 ^ k % 256 ^ k = n % 256 ^ k :=
      Nat.mod_mod_of_dvd _ dvd_rfl
    rw [h2, pow_succ, Nat.mod_mul]
    ring

theorem beToNat_beBytes_of_lt {k n : Nat} (h : n < 256 ^ k) :
    beToNat (beBytes k n) = n := by
  rw [beToNat_beBytes, Nat.mod_eq_of_lt h]

theorem beBytes_lt (k n : Nat) : ∀ b ∈ beBytes k n, b < 256 := by
  induction k generalizing n with
  | zero => simp [beBytes]
  | succ k ih =>
    intro b hb
    simp only [beBytes, List.mem_cons] at hb
    rcases hb with h | h
    · subst h; exact Nat.mod_lt _ (by norm_num)
    · exact ih _ b h

/-! ## Reading primitives

The `concordium_common` reading macros are declared outside `src/`.
Modelled from the spec: `read_ty!` / `read_const_sized!` / `read_sized!`
consume an exact number of bytes and fail on a truncated buffer;
`safe_get_len!` reads a big-endian length prefix and enforces an explicit
bound; "Bytestrings: three length prefixes — short (`u16`, ≤ 1 KiB), medium
(`u32`, ≤ 4 KiB), long (`u64`, ≤ 64 KiB) — with explicit bounds enforced on
read"; "collections carry a length prefix of 2, 4, or 8 bytes and an
optional allocation cap".

Readers consume from the front of the input and return the parsed value
together with the remaining bytes, which models a cursor position. -/

/-- Consumption of exactly `n` bytes (`read_sized!` and, for a constant `n`,
`read_const_sized!` / `read_ty!`); fails with a truncation error when fewer
are available. -/
def readBytes (n : Nat) (input : Bytes) : Res (Bytes × Bytes) :=
  if n ≤ input.length then .ok (input.take n, input.drop n) else .err .truncated

/-- Big-endian `u64` read (`NetworkEndian::read_u64(&read_ty!(...))`). -/
def readU64 (input : Bytes) : Res (Nat × Bytes) := do
  let (bs, rest) ← readBytes 8 input
  pure (beToNat bs, rest)

/-- Big-endian `u32` read. -/
def readU32 (input : Bytes) : Res (Nat × Bytes) := do
  let (bs, rest) ← readBytes 4 input
  pure (beToNat bs, rest)

/-- Big-endian `u16` read. -/
def readU16 (input : Bytes) : Res (Nat × Bytes) := do
  let (bs, rest) ← readBytes 2 input
  pure (beToNat bs, rest)

/-- Modelled from the spec: `safe_get_len!(input, size, cap)` reads a
`size`-byte big-endian length prefix and fails when it exceeds `cap`. -/
def safeGetLen (size cap : Nat) (input : Bytes) : Res (Nat × Bytes) := do
  let (bs, rest) ← readBytes size input
  let len := beToNat bs
  if len ≤ cap then pure (len, rest) else .err .lenOverCap

/-- `read_bytestring_short_length`: `u16` length prefix, cap 1024
(`common.rs`). -/
def read_bytestring_short_length (input : Bytes) : Res (Bytes × Bytes) := do
  let (len, rest) ← safeGetLen 2 1024 input
  readBytes len rest

/-- `read_bytestring_medium`: `u32` length prefix, cap `4 * 1024`
(`common.rs`). -/
def read_bytestring_medium (input : Bytes) : Res (Bytes × Bytes) := do
  let (len, rest) ← safeGetLen 4 (4 * 1024) input
  readBytes len rest

/-- `read_bytestring`: `u64` length prefix, cap `64 * 1024` (`common.rs`). -/
def read_bytestring (input : Bytes) : Res (Bytes × Bytes) := do
  let (len, rest) ← safeGetLen 8 (64 * 1024) input
  readBytes len rest

/-- `write_bytestring_short_length` (`common.rs`): `u16` length then the
bytes.  `bytes.len() as u16` truncates, hence the `% 2^16` in the prefix. -/
def write_bytestring_short_length (bytes : Bytes) : Bytes :=
  beBytes 2 bytes.length ++ bytes

/-- `write_bytestring` (`common.rs`): `u64` length then the bytes. -/
def write_bytestring (bytes : Bytes) : Bytes :=
  beBytes 8 bytes.length ++ bytes

/-- Modelled from the spec: `read_multiple!(cursor, expr, size, cap)` reads a
`size`-byte big-endian count, fails when it exceeds the allocation cap, then
parses that many elements.  `readCount` is the element-reading loop. -/
def readCount {α : Type} (p : Bytes → Res (α × Bytes)) :
    Nat → Bytes → Res (List α × Bytes)
  | 0, input => .ok ([], input)
  | n + 1, input => do
    let (x, rest) ← p input
    let (xs, rest) ← readCount p n rest
    pure (x :: xs, rest)

/-- Modelled from the spec: the `read_multiple!` macro itself. -/
def readMultiple {α : Type} (p : Bytes → Res (α × Bytes)) (size cap : Nat)
    (input : Bytes) : Res (List α × Bytes) := do
  let (n, rest) ← safeGetLen size cap input
  readCount p n rest

/-! ### Round-trip lemmas for the primitives -/

theorem readBytes_append (xs rest : Bytes) :
    readBytes xs.length (xs ++ rest) = .ok (xs, rest) := by
  simp [readBytes]

theorem readBytes_exact_append {n : Nat} (xs rest : Bytes)
    (h : xs.length = n) : readBytes n (xs ++ rest) = .ok (xs, rest) := by
  subst h; exact readBytes_append xs rest

theorem readU64_append {n : Nat} (rest : Bytes) (h : n < 2 ^ 64) :
    readU64 (beBytes 8 n ++ rest) = .ok (n, rest) := by
  have hlen : (beBytes 8 n).length = 8 := beBytes_length 8 n
  simp [readU64, readBytes_exact_append _ rest hlen,
    beToNat_beBytes_of_lt (show n < 256 ^ 8 by norm_num at h ⊢; omega)]

theorem readU32_append {n : Nat} (rest : Bytes) (h : n < 2 ^ 32) :
    readU32 (beBytes 4 n ++ rest) = .ok (n, rest) := by
  have hlen : (beBytes 4 n).length = 4 := beBytes_length 4 n
  simp [readU32, readBytes_exact_append _ rest hlen,
    beToNat_beBytes_of_lt (show n < 256 ^ 4 by norm_num at h ⊢; omega)]

theorem readU16_append {n : Nat} (rest : Bytes) (h : n < 2 ^ 16) :
    readU16 (beBytes 2 n ++ rest) = .ok (n, rest) := by
  have hlen : (beBytes 2 n).length = 2 := beBytes_length 2 n
  simp [readU16, readBytes_exact_append _ rest hlen,
    beToNat_beBytes_of_lt (show n < 256 ^ 2 by norm_num at h ⊢; omega)]

theorem safeGetLen_append {size cap n : Nat} (rest : Bytes)
    (hlt : n < 256 ^ size) (hcap : n ≤ cap) :
    safeGetLen size cap (beBytes size n ++ rest) = .ok (n, rest) := by
  have hlen : (beBytes size n).length = size := beBytes_length size n
  simp [safeGetLen, readBytes_exact_append _ rest hlen,
    beToNat_beBytes_of_lt hlt, hcap]

theorem read_bytestring_append (s rest : Bytes) (h : s.length ≤ 64 * 1024) :
    read_bytestring (beBytes 8 s.length ++ s ++ rest) = .ok (s, rest) := by
  rw [read_bytestring, List.append_assoc]
  rw [safeGetLen_append (s ++ rest) (by norm_num; omega) h]
  simp [readBytes_append]

theorem read_bytestring_short_length_append (s rest : Bytes)
    (h : s.length ≤ 1024) :
    read_bytestring_short_length (beBytes 2 s.length ++ s ++ rest) =
      .ok (s, rest) := by
  rw [read_bytestring_short_length, List.append_assoc]
  rw [safeGetLen_append (s ++ rest) (by norm_num; omega) h]
  simp [readBytes_append]

theorem read_bytestring_short_length_write (s rest : Bytes)
    (h : s.length ≤ 1024) :
    read_bytestring_short_length (write_bytestring_short_length s ++ rest) =
      .ok (s, rest) := by
  have : write_bytestring_short_length s = beBytes 2 s.length ++ s := rfl
  rw [this, List.append_assoc, ← List.append_assoc]
  exact read_bytestring_short_length_append s rest h

theorem read_bytestring_write (s rest : Bytes) (h : s.length ≤ 64 * 1024) :
    read_bytestring (write_bytestring s ++ rest) = .ok (s, rest) := by
  have : write_bytestring s = beBytes 8 s.length ++ s := rfl
  rw [this, List.append_assoc, ← List.append_assoc]
  exact read_bytestring_append s rest h

/-! ## External leaf types

`SchemeId`, `AccountAddress`, `ContractAddress`, `HashBytes` and the SHA-256
digest live in the external `concordium_common` / crypto crates, outside
`src/`. -/

/-- Modelled from the spec: SHA-256 ("Block identity is the SHA-256 of its
canonical serialization").  The digest itself is an external primitive; it is
modelled as a fixed deterministic 32-byte function of the input bytes — every
claim proved here depends only on determinism and on the output length. -/
def sha256 (bs : Bytes) : Bytes :=
  beBytes 32 (bs.foldl (fun a b => a * 257 + b + 1) 1 % 2 ^ 256)

@[simp] theorem sha256_length (bs : Bytes) : (sha256 bs).length = 32 :=
  beBytes_length 32 _

/-- Modelled from the spec: `SchemeId::try_from(u8)` is declared in the
external `blockchain_types`; the spec only requires a closed set of scheme
ids with unknown tags rejected.  Scheme `0` (Ed25519) is the valid one. -/
def SchemeId.try_from (b : Nat) : Res Nat :=
  if b = 0 then .ok 0 else .err .unknownSchemeId

/-- Modelled from the spec: the byte width of the external fixed-size
`AccountAddress` (used by `read_ty!(cursor, AccountAddress)`). -/
def ACCOUNT_ADDRESS_LENGTH : Nat := 21

/-- Modelled from the spec: `AccountAddress::from((&sender_key, scheme_id))`
derives the sender account from the key ("derived sender account"); modelled
as a deterministic function producing a fixed-width address. -/
def accountAddressFrom (senderKey : Bytes) (schemeId : Nat) : Bytes :=
  beBytes 1 schemeId ++ (sha256 senderKey).take 20

/-- `ec_vrf_ed25519::PROOF_LENGTH`; the spec fixes `proof (80B), nonce (80B)`
in the regular block body, and `block.rs` sets `NONCE = PROOF_LENGTH`. -/
def PROOF_LENGTH : Nat := 80

/-- Modelled from the spec: the external `ContractAddress` (two `u64`
fields, 16 bytes on the wire, read by `ContractAddress::deserialize`). -/
structure ContractAddress where
  index : Nat
  subindex : Nat
deriving DecidableEq, Repr

/-- Modelled from the spec: `ContractAddress::deserialize` reads the two
big-endian `u64` fields. -/
def ContractAddress.deserialize (input : Bytes) :
    Res (ContractAddress × Bytes) := do
  let (i, rest) ← readU64 input
  let (s, rest) ← readU64 rest
  pure ({ index := i, subindex := s }, rest)

/-- Modelled from the spec: `ContractAddress::serialize`. -/
def ContractAddress.serialize (c : ContractAddress) : Bytes :=
  beBytes 8 c.index ++ beBytes 8 c.subindex

/-! ## Nonce (`common.rs`) -/

/-- `Nonce(pub u64)` (`common.rs`). -/
structure Nonce where
  val : Nat
deriving DecidableEq, Repr

/-- `impl TryFrom<u64> for Nonce` (`common.rs` lines 102–112): zero is
rejected with "A zero nonce was received!". -/
def Nonce.try_from (raw : Nat) : Res Nonce :=
  if raw ≠ 0 then .ok ⟨raw⟩ else .err .zeroNonce

/-! ## Transaction codec (`transaction.rs`) -/

/-- `PAYLOAD_MAX_LEN: u32 = 512 * 1024 * 1024` (`transaction.rs` line 15). -/
def PAYLOAD_MAX_LEN : Nat := 512 * 1024 * 1024

/-- `TransactionHeader` (`transaction.rs`). -/
structure TransactionHeader where
  scheme_id : Nat
  sender_key : Bytes
  nonce : Nonce
  gas_amount : Nat
  finalized_ptr : Bytes
  sender_account : Bytes
deriving DecidableEq, Repr

/-- `TransactionType::try_from(u8)` (`transaction.rs`): tags `0..=9`, any
other tag is "Unsupported".  The result is kept as the numeric tag. -/
def TransactionType.try_from (id : Nat) : Res Nat :=
  if id ≤ 9 then .ok id else .err .unknownTransactionType

/-- `TransactionPayload` (`transaction.rs`).  The six variants whose codec
is `unimplemented!()` in the source are carried without fields beyond their
tag. -/
inductive TransactionPayload where
  | DeployModule (module : Bytes)
  | InitContract (amount : Nat) (module : Bytes) (contract : Nat)
      (param : Bytes)
  | Update (amount : Nat) (address : ContractAddress) (message : Bytes)
  | Transfer (target_scheme : Nat) (target_address : Bytes) (amount : Nat)
  | DeployCredentials
  | DeployEncryptionKey
  | AddBaker
  | RemoveBaker
  | UpdateBakerAccount
  | UpdateBakerSignKey
deriving DecidableEq, Repr

/-- `TransactionPayload::transaction_type` as a numeric tag. -/
def TransactionPayload.transaction_type : TransactionPayload → Nat
  | .DeployModule _ => 0
  | .InitContract _ _ _ _ => 1
  | .Update _ _ _ => 2
  | .Transfer _ _ _ => 3
  | .DeployCredentials => 4
  | .DeployEncryptionKey => 5
  | .AddBaker => 6
  | .RemoveBaker => 7
  | .UpdateBakerAccount => 8
  | .UpdateBakerSignKey => 9

/-- Wrapping `u32` subtraction (`len - 1` on a `u32` wraps in release mode
when `len = 0`). -/
def subU32 (a b : Nat) : Nat := (a + 2 ^ 32 - b % 2 ^ 32) % 2 ^ 32

/-- `TransactionPayload::deserialize((cursor, len))` (`transaction.rs`).
`len` is the `payload_len` header field; the sizes of the trailing
variable-length members are inferred from it.  The variants whose
deserialization is `unimplemented!()` panic. -/
def TransactionPayload.deserialize (len : Nat) (input : Bytes) :
    Res (TransactionPayload × Bytes) := do
  let (tb, rest) ← readBytes 1 input
  let variant ← TransactionType.try_from (tb.headD 0)
  if variant = 0 then do
    let (module, rest) ← readBytes (subU32 len 1) rest
    pure (.DeployModule module, rest)
  else if variant = 1 then do
    let (ab, rest) ← readU64 rest
    let (module, rest) ← readBytes 32 rest
    let (cb, rest) ← readU32 rest
    let nonParamLen := 1 + 8 + 32 + 4
    if nonParamLen ≤ len then do
      let (param, rest) ← readBytes (len - nonParamLen) rest
      pure (.InitContract ab module cb param, rest)
    else .err .malformedParam
  else if variant = 2 then do
    let (ab, rest) ← readU64 rest
    let (address, rest) ← ContractAddress.deserialize rest
    let nonMessageLen := 1 + 8 + 16
    if nonMessageLen ≤ len then do
      let (message, rest) ← readBytes (len - nonMessageLen) rest
      pure (.Update ab address message, rest)
    else .err .malformedMessage
  else if variant = 3 then do
    let (sb, rest) ← readBytes 1 rest
    let ts ← SchemeId.try_from (sb.headD 0)
    let (ta, rest) ← readBytes ACCOUNT_ADDRESS_LENGTH rest
    let (ab, rest) ← readU64 rest
    pure (.Transfer ts ta ab, rest)
  else .panic .unimplementedVariant

/-- `TransactionPayload::serialize` (`transaction.rs`): the tag byte then the
variant body; the unimplemented variants panic. -/
def TransactionPayload.serialize : TransactionPayload → Res Bytes
  | .DeployModule module => .ok (0 :: module)
  | .InitContract amount module contract param =>
      .ok (1 :: (beBytes 8 amount ++ module ++ beBytes 4 contract ++ param))
  | .Update amount address message =>
      .ok (2 :: (beBytes 8 amount ++ address.serialize ++ message))
  | .Transfer ts ta amount =>
      .ok (3 :: (beBytes 1 ts ++ ta ++ beBytes 8 amount))
  | _ => .panic .unimplementedVariant

/-- `TransactionHeader::deserialize` (`transaction.rs` lines 32–53). -/
def TransactionHeader.deserialize (input : Bytes) :
    Res (TransactionHeader × Bytes) := do
  let (sb, rest) ← readBytes 1 input
  let scheme_id ← SchemeId.try_from (sb.headD 0)
  let (sender_key, rest) ← read_bytestring rest
  let (nraw, rest) ← readU64 rest
  let nonce ← Nonce.try_from nraw
  let (gas_amount, rest) ← readU64 rest
  let (finalized_ptr, rest) ← readBytes 32 rest
  let sender_account := accountAddressFrom sender_key scheme_id
  pure ({ scheme_id, sender_key, nonce, gas_amount, finalized_ptr,
          sender_account }, rest)

/-- `TransactionHeader::serialize` (`transaction.rs` lines 55–73). -/
def TransactionHeader.serialize (h : TransactionHeader) : Bytes :=
  beBytes 1 h.scheme_id ++ beBytes 8 h.sender_key.length ++ h.sender_key ++
    beBytes 8 h.nonce.val ++ beBytes 8 h.gas_amount ++ h.finalized_ptr

/-- `Transaction` (`transaction.rs`). -/
structure Transaction where
  signature : Bytes
  header : TransactionHeader
  payload : TransactionPayload
  hash : Bytes
deriving DecidableEq, Repr

/-- `Transaction::serialize` (`transaction.rs` lines 115–134):
`sig_len:u64 | sig | header | payload_len:u32 | payload`.  The payload
serialization can panic on the unimplemented variants, hence `Res`. -/
def Transaction.serialize (t : Transaction) : Res Bytes := do
  let payload ← t.payload.serialize
  pure (beBytes 8 t.signature.length ++ t.signature ++
    t.header.serialize ++ beBytes 4 payload.length ++ payload)

/-- `Transaction::deserialize` (`transaction.rs` lines 87–113).  The hash is
the SHA-256 of exactly the bytes consumed (`initial_pos..position`); the
`check_serialization!` debug assertion is compiled out of release builds and
not part of the semantics. -/
def Transaction.deserialize (input : Bytes) : Res (Transaction × Bytes) := do
  let (signature, rest) ← read_bytestring input
  let (header, rest) ← TransactionHeader.deserialize rest
  let (payload_len, rest) ← readU32 rest
  if payload_len ≤ PAYLOAD_MAX_LEN then do
    let (payload, rest) ← TransactionPayload.deserialize payload_len rest
    let hash := sha256 (input.take (input.length - rest.length))
    pure ({ signature, header, payload, hash }, rest)
  else .err .payloadTooBig

/-! ## Block codec (`block.rs`) -/

/-- `TX_ALLOC_LIMIT = 256 * 1024` (`block.rs` line 19). -/
def TX_ALLOC_LIMIT : Nat := 256 * 1024

/-- Modelled from the spec: `FullTransaction` is declared outside `src/`;
per the spec a block's `tx_list` entries are transactions in the layout of
`transaction.rs`, so it is a wrapper whose `bare_transaction` is that
`Transaction` and whose `serial` form is the transaction serialization. -/
structure FullTransaction where
  bare_transaction : Transaction
deriving DecidableEq, Repr

/-- Modelled from the spec: `FullTransaction::deserialize`. -/
def FullTransaction.deserialize (input : Bytes) :
    Res (FullTransaction × Bytes) := do
  let (t, rest) ← Transaction.deserialize input
  pure (⟨t⟩, rest)

/-- `serialize_list` (`common.rs` lines 219–230): serialize each element in
order, collecting the byte strings. -/
def serialize_list : List FullTransaction → Res (List Bytes)
  | [] => .ok []
  | tx :: txs => do
    let e ← tx.bare_transaction.serialize
    let es ← serialize_list txs
    pure (e :: es)

/-- Modelled from the spec: `write_multiple!(target, list, ...)` writes the
element count as a big-endian `u64` and then every element. -/
def writeMultiple (l : List Bytes) : Bytes :=
  beBytes 8 l.length ++ l.flatten

/-- `BlockFields` (`block.rs`). -/
structure BlockFields where
  pointer : Bytes
  baker_id : Nat
  proof : Bytes
  nonce : Bytes
  last_finalized : Bytes
deriving DecidableEq, Repr

/-- `BakedBlock` (`block.rs`): the already re-serialized transaction list is
kept as raw bytes (`transactions: Encoded`). -/
structure BakedBlock where
  fields : BlockFields
  transactions : Bytes
  signature : Bytes
deriving DecidableEq, Repr

/-- `BlockData` (`block.rs`). -/
inductive BlockData where
  | Genesis (data : Bytes)
  | Regular (data : BakedBlock)
deriving DecidableEq, Repr

/-- `Block` (`block.rs`). -/
structure Block where
  slot : Nat
  data : BlockData
deriving DecidableEq, Repr

/-- `BlockData::deserialize((cursor, slot))` (`block.rs` lines 121–188).
Slot `0` reads the remaining bytes as an opaque genesis body; otherwise the
regular body is parsed and its transaction list re-serialized into the
stored `transactions` bytes. -/
def BlockData.deserialize (slot : Nat) (input : Bytes) :
    Res (BlockData × Bytes) :=
  if slot = 0 then .ok (.Genesis input, [])
  else do
    let (pointer, rest) ← readBytes 32 input
    let (baker_id, rest) ← readU64 rest
    let (proof, rest) ← readBytes PROOF_LENGTH rest
    let (nonce, rest) ← readBytes PROOF_LENGTH rest
    let (last_finalized, rest) ← readBytes 32 rest
    let (transactions, rest) ←
      readMultiple FullTransaction.deserialize 8 TX_ALLOC_LIMIT rest
    let (signature, rest) ← read_bytestring_short_length rest
    let txs ← serialize_list transactions
    let txBytes := writeMultiple txs
    pure (.Regular { fields := { pointer, baker_id, proof, nonce,
                                 last_finalized },
                     transactions := txBytes, signature }, rest)

/-- `BlockData::serial` (`block.rs` lines 190–234): the genesis body is the
raw stored bytes; the regular body is the fixed fields, the stored
transaction bytes, and the short-length signature. -/
def BlockData.serial : BlockData → Bytes
  | .Genesis data => data
  | .Regular data =>
      data.fields.pointer ++ beBytes 8 data.fields.baker_id ++
        data.fields.proof ++ data.fields.nonce ++
        data.fields.last_finalized ++ data.transactions ++
        write_bytestring_short_length data.signature

/-- `Block::deserialize` (`block.rs` lines 75–84): `slot:u64` then the
variant body. -/
def Block.deserialize (bytes : Bytes) : Res Block := do
  let (slotBytes, rest) ← readBytes 8 bytes
  let slot := beToNat slotBytes
  let (data, _) ← BlockData.deserialize slot rest
  pure { slot, data }

/-- `Block::serial` (`block.rs` lines 86–90). -/
def Block.serial (b : Block) : Bytes :=
  beBytes 8 b.slot ++ b.data.serial

/-- `PendingBlock` (`block.rs`). -/
structure PendingBlock where
  hash : Bytes
  block : Block
deriving DecidableEq, Repr

/-- `hash_without_timestamps` (`block.rs` lines 279–319): re-serializes the
transactions in bare form and hashes; the genesis arm is
`unreachable!("GenesisData will never be transformed into a Pending
Block")`, i.e. a panic, not an `Err`. -/
def hash_without_timestamps (block : Block) : Res Bytes :=
  match block.data with
  | .Regular data => do
      let (txs, _) ←
        readMultiple FullTransaction.deserialize 8 TX_ALLOC_LIMIT
          data.transactions
      let bares ← serialize_list txs
      let target := beBytes 8 block.slot ++ data.fields.pointer ++
        beBytes 8 data.fields.baker_id ++ data.fields.proof ++
        data.fields.nonce ++ data.fields.last_finalized ++
        writeMultiple bares ++ write_bytestring_short_length data.signature
      pure (sha256 target)
  | .Genesis _ => .panic .genesisPendingBlock

/-- `PendingBlock::new` (`block.rs` lines 321–329). -/
def PendingBlock.new (bytes : Bytes) : Res PendingBlock := do
  let block ← Block.deserialize bytes
  let hash ← hash_without_timestamps block
  pure { hash, block }

/-! ## Catch-up status codec (`catch_up.rs`) -/

/-- `CatchUpStatus` (`catch_up.rs`). -/
structure CatchUpStatus where
  is_request : Bool
  last_finalized_block : Bytes
  last_finalized_height : Nat
  best_block : Bytes
  finalization_justifiers : List Bytes
deriving DecidableEq, Repr

/-- `CatchUpStatus::deserial` (`catch_up.rs` lines 21–43): the justifier
list is `read_multiple!` of 32-byte hashes with a 4-byte count prefix and
cap 1024. -/
def CatchUpStatus.deserial (input : Bytes) : Res (CatchUpStatus × Bytes) := do
  let (rb, rest) ← readBytes 1 input
  let is_request := rb.headD 0 ≠ 0
  let (lfb, rest) ← readBytes 32 rest
  let (height, rest) ← readU64 rest
  let (best, rest) ← readBytes 32 rest
  let (justifiers, rest) ← readMultiple (readBytes 32) 4 1024 rest
  pure ({ is_request, last_finalized_block := lfb,
          last_finalized_height := height, best_block := best,
          finalization_justifiers := justifiers }, rest)

/-- `CatchUpStatus::serial` (`catch_up.rs` lines 45–57): writes
`is_request as u8`, the two hashes around the height, then a `u32` count and
the justifiers. -/
def CatchUpStatus.serial (s : CatchUpStatus) : Bytes :=
  (if s.is_request then 1 else 0) :: (s.last_finalized_block ++
    beBytes 8 s.last_finalized_height ++ s.best_block ++
    beBytes 4 s.finalization_justifiers.length ++
    s.finalization_justifiers.flatten)

/-! ## Well-formedness

The wire format can only represent values within the caps that the readers
enforce; a value violating them cannot survive a round trip.  These
predicates collect exactly those bounds for each codec type. -/

/-- Test for the `ok` outcome. -/
def Res.isOk {α : Type} : Res α → Bool
  | .ok _ => true
  | _ => false

/-- Bounds under which a `TransactionPayload` is wire-representable: a
supported variant, fields within their integer widths and fixed byte widths,
and a total payload within `PAYLOAD_MAX_LEN`. -/
def payloadWf : TransactionPayload → Bool
  | .DeployModule module => 1 + module.length ≤ PAYLOAD_MAX_LEN
  | .InitContract amount module contract param =>
      amount < 2 ^ 64 && module.length = 32 && contract < 2 ^ 32 &&
        1 + 8 + 32 + 4 + param.length ≤ PAYLOAD_MAX_LEN
  | .Update amount address message =>
      amount < 2 ^ 64 && address.index < 2 ^ 64 &&
        address.subindex < 2 ^ 64 &&
        1 + 8 + 16 + message.length ≤ PAYLOAD_MAX_LEN
  | .Transfer ts ta amount =>
      ts = 0 && ta.length = ACCOUNT_ADDRESS_LENGTH && amount < 2 ^ 64
  | _ => false

/-- Bounds under which a `TransactionHeader` is wire-representable,
including the derived-field invariant on `sender_account`. -/
def headerWf (h : TransactionHeader) : Bool :=
  h.scheme_id = 0 && h.sender_key.length ≤ 64 * 1024 &&
    h.nonce.val ≠ 0 && h.nonce.val < 2 ^ 64 && h.gas_amount < 2 ^ 64 &&
    h.finalized_ptr.length = 32 &&
    h.sender_account = accountAddressFrom h.sender_key h.scheme_id

/-- Check that a transaction's stored hash is the SHA-256 of its own
serialization, as `Transaction::deserialize` computes it. -/
def hashMatches (t : Transaction) : Bool :=
  match t.payload.serialize with
  | .ok p => t.hash == sha256 (beBytes 8 t.signature.length ++ t.signature ++
      t.header.serialize ++ beBytes 4 p.length ++ p)
  | _ => false

/-- Bounds under which a `Transaction` is wire-representable. -/
def transactionWf (t : Transaction) : Bool :=
  t.signature.length ≤ 64 * 1024 && headerWf t.header &&
    payloadWf t.payload && hashMatches t

/-- Bounds under which a `CatchUpStatus` is wire-representable. -/
def catchUpWf (s : CatchUpStatus) : Bool :=
  s.last_finalized_block.length = 32 && s.last_finalized_height < 2 ^ 64 &&
    s.best_block.length = 32 && s.finalization_justifiers.length ≤ 1024 &&
    s.finalization_justifiers.all (fun j => j.length = 32)

/-- Bounds under which a `Block` is wire-representable: the variant matches
the slot (slot `0` is the genesis variant), the fixed fields have their wire
widths, the stored transaction bytes are the canonical serialization of a
wire-representable transaction list, and the signature fits the short
length prefix. -/
def blockWf (b : Block) : Prop :=
  b.slot < 2 ^ 64 ∧
  match b.data with
  | .Genesis _ => b.slot = 0
  | .Regular d =>
      b.slot ≠ 0 ∧ d.fields.pointer.length = 32 ∧
        d.fields.baker_id < 2 ^ 64 ∧ d.fields.proof.length = PROOF_LENGTH ∧
        d.fields.nonce.length = PROOF_LENGTH ∧
        d.fields.last_finalized.length = 32 ∧
        d.signature.length ≤ 1024 ∧
        ∃ (txs : List FullTransaction) (ls : List Bytes),
          (∀ tx ∈ txs, transactionWf tx.bare_transaction = true) ∧
            txs.length ≤ TX_ALLOC_LIMIT ∧ serialize_list txs = .ok ls ∧
            d.transactions = writeMultiple ls

/-! ### Round-trip lemmas -/

theorem readBytes_one (b : Nat) (rest : Bytes) :
    readBytes 1 (b :: rest) = .ok ([b], rest) := by
  simp [readBytes]

theorem ContractAddress_roundtrip (c : ContractAddress) (rest : Bytes)
    (hi : c.index < 2 ^ 64) (hs : c.subindex < 2 ^ 64) :
    ContractAddress.deserialize (c.serialize ++ rest) = .ok (c, rest) := by
  have h1 := readU64_append (n := c.index) (beBytes 8 c.subindex ++ rest) hi
  have h2 := readU64_append (n := c.subindex) rest hs
  simp only [ContractAddress.serialize, List.append_assoc]
  simp only [ContractAddress.deserialize, Res.monadBind_eq, h1, Res.bind_ok,
    h2, Res.pure_eq]

theorem TransactionPayload_roundtrip (pl : TransactionPayload) (p rest : Bytes)
    (hwf : payloadWf pl = true) (hs : pl.serialize = .ok p) :
    TransactionPayload.deserialize p.length (p ++ rest) = .ok (pl, rest) := by
  cases pl with
  | DeployModule module =>
    simp only [TransactionPayload.serialize, Res.ok.injEq] at hs
    subst hs
    simp only [payloadWf, decide_eq_true_eq] at hwf
    have hm : module.length < 2 ^ 32 := by
      have : PAYLOAD_MAX_LEN = 536870912 := rfl
      omega
    have hsub : subU32 (0 :: module).length 1 = module.length := by
      simp only [subU32, List.length_cons]
      have : module.length + 1 + 2 ^ 32 - 1 % 2 ^ 32 =
          module.length + 2 ^ 32 := by omega
      rw [this, Nat.add_mod_right, Nat.mod_eq_of_lt hm]
    simp only [TransactionPayload.deserialize, List.cons_append,
      readBytes_one, Res.monadBind_eq, Res.bind_ok, List.headD_cons,
      TransactionType.try_from, hsub]
    norm_num
    rw [readBytes_append module rest]
    rfl
  | InitContract amount module contract param =>
    simp only [TransactionPayload.serialize, Res.ok.injEq] at hs
    subst hs
    simp only [payloadWf, Bool.and_eq_true, decide_eq_true_eq] at hwf
    obtain ⟨⟨⟨ha, hm⟩, hc⟩, hp⟩ := hwf
    have hlen : (1 :: (beBytes 8 amount ++ module ++ beBytes 4 contract ++
        param)).length = 45 + param.length := by
      simp [hm]; omega
    simp only [TransactionPayload.deserialize, List.cons_append,
      readBytes_one, Res.monadBind_eq, Res.bind_ok, List.headD_cons,
      TransactionType.try_from, hlen]
    norm_num
    try simp only [List.append_assoc]
    rw [readU64_append (module ++ (beBytes 4 contract ++ (param ++ rest))) ha,
      Res.bind_ok]
    rw [readBytes_exact_append (n := 32) module
      (beBytes 4 contract ++ (param ++ rest)) hm, Res.bind_ok]
    rw [readU32_append (param ++ rest) hc, Res.bind_ok]
    have h45 : (45:Nat) ≤ 45 + param.length := by omega
    simp only [h45, if_true, Nat.add_sub_cancel_left]
    rw [readBytes_append param rest]
    rfl
  | Update amount address message =>
    simp only [TransactionPayload.serialize, Res.ok.injEq] at hs
    subst hs
    simp only [payloadWf, Bool.and_eq_true, decide_eq_true_eq] at hwf
    obtain ⟨⟨⟨ha, hi⟩, hsi⟩, hp⟩ := hwf
    have hlen : (2 :: (beBytes 8 amount ++ address.serialize ++
        message)).length = 25 + message.length := by
      simp [ContractAddress.serialize]; omega
    simp only [TransactionPayload.deserialize, List.cons_append,
      readBytes_one, Res.monadBind_eq, Res.bind_ok, List.headD_cons,
      TransactionType.try_from, hlen]
    norm_num
    try simp only [List.append_assoc]
    rw [readU64_append (address.serialize ++ (message ++ rest)) ha,
      Res.bind_ok]
    rw [ContractAddress_roundtrip address (message ++ rest) hi hsi,
      Res.bind_ok]
    have h25 : (25:Nat) ≤ 25 + message.length := by omega
    simp only [h25, if_true, Nat.add_sub_cancel_left]
    rw [readBytes_append message rest]
    rfl
  | Transfer ts ta amount =>
    simp only [TransactionPayload.serialize, Res.ok.injEq] at hs
    subst hs
    simp only [payloadWf, Bool.and_eq_true, decide_eq_true_eq] at hwf
    obtain ⟨⟨hts, hta⟩, ha⟩ := hwf
    subst hts
    have hb1 : beBytes 1 0 = [0] := rfl
    simp only [TransactionPayload.deserialize, List.cons_append,
      readBytes_one, Res.monadBind_eq, Res.bind_ok, List.headD_cons,
      TransactionType.try_from, hb1]
    norm_num
    try simp only [List.append_assoc]
    rw [show SchemeId.try_from 0 = .ok 0 from rfl, Res.bind_ok]
    rw [readBytes_exact_append (n := ACCOUNT_ADDRESS_LENGTH) ta
      (beBytes 8 amount ++ rest) hta, Res.bind_ok]
    rw [readU64_append rest ha]
    rfl
  | DeployCredentials => simp [payloadWf] at hwf
  | DeployEncryptionKey => simp [payloadWf] at hwf
  | AddBaker => simp [payloadWf] at hwf
  | RemoveBaker => simp [payloadWf] at hwf
  | UpdateBakerAccount => simp [payloadWf] at hwf
  | UpdateBakerSignKey => simp [payloadWf] at hwf

theorem payload_serialize_length (pl : TransactionPayload) (p : Bytes)
    (hwf : payloadWf pl = true) (hs : pl.serialize = .ok p) :
    p.length ≤ PAYLOAD_MAX_LEN := by
  cases pl <;>
    simp only [TransactionPayload.serialize, Res.ok.injEq, payloadWf,
      Bool.and_eq_true, decide_eq_true_eq] at hwf hs <;>
    first
      | (subst hs
         simp only [List.length_cons, List.length_append, beBytes_length,
           ContractAddress.serialize]
         try obtain ⟨⟨⟨h1, h2⟩, h3⟩, h4⟩ := hwf
         try obtain ⟨⟨h1, h2⟩, h3⟩ := hwf
         simp_all [PAYLOAD_MAX_LEN, ACCOUNT_ADDRESS_LENGTH]
         try omega)
      | simp at hs

theorem read_bytestring_append_assoc (s rest : Bytes)
    (h : s.length ≤ 64 * 1024) :
    read_bytestring (beBytes 8 s.length ++ (s ++ rest)) = .ok (s, rest) := by
  rw [← List.append_assoc]
  exact read_bytestring_append s rest h

theorem read_bytestring_short_length_append_assoc (s rest : Bytes)
    (h : s.length ≤ 1024) :
    read_bytestring_short_length (beBytes 2 s.length ++ (s ++ rest)) =
      .ok (s, rest) := by
  rw [← List.append_assoc]
  exact read_bytestring_short_length_append s rest h

theorem TransactionHeader_roundtrip (h : TransactionHeader) (rest : Bytes)
    (hwf : headerWf h = true) :
    TransactionHeader.deserialize (h.serialize ++ rest) = .ok (h, rest) := by
  obtain ⟨sid, key, non, gas, fp, acct⟩ := h
  simp only [headerWf, Bool.and_eq_true, decide_eq_true_eq] at hwf
  obtain ⟨⟨⟨⟨⟨⟨hsid, hkey⟩, hnz⟩, hnlt⟩, hglt⟩, hfp⟩, hacct⟩ := hwf
  subst hsid
  subst hacct
  have hb1 : beBytes 1 0 = [0] := rfl
  simp only [TransactionHeader.serialize, hb1, List.cons_append,
    List.append_assoc, List.singleton_append, List.nil_append]
  simp only [TransactionHeader.deserialize, readBytes_one, Res.monadBind_eq,
    Res.bind_ok, List.headD_cons, List.nil_append]
  rw [show SchemeId.try_from 0 = .ok 0 from rfl, Res.bind_ok]
  rw [read_bytestring_append_assoc key
    (beBytes 8 non.val ++ (beBytes 8 gas ++ (fp ++ rest))) hkey]
  simp only [Res.bind_ok, List.append_assoc]
  rw [readU64_append (beBytes 8 gas ++ (fp ++ rest)) hnlt, Res.bind_ok]
  rw [show Nonce.try_from non.val = .ok non by
    simp [Nonce.try_from, hnz], Res.bind_ok]
  rw [readU64_append (fp ++ rest) hglt, Res.bind_ok]
  rw [readBytes_exact_append (n := 32) fp rest hfp, Res.bind_ok]
  rfl

theorem Transaction_roundtrip (t : Transaction) (s rest : Bytes)
    (hwf : transactionWf t = true) (hs : t.serialize = .ok s) :
    Transaction.deserialize (s ++ rest) = .ok (t, rest) := by
  simp only [transactionWf, Bool.and_eq_true, decide_eq_true_eq] at hwf
  obtain ⟨⟨⟨hsig, hhdr⟩, hpl⟩, hhash⟩ := hwf
  simp only [Transaction.serialize, Res.monadBind_eq] at hs
  rcases hp : t.payload.serialize with p | e | pk
  · rw [hp, Res.bind_ok, Res.pure_eq, Res.ok.injEq] at hs
    subst hs
    have hplen := payload_serialize_length t.payload p hpl hp
    have hplen32 : p.length < 2 ^ 32 := by
      have : PAYLOAD_MAX_LEN = 536870912 := rfl
      omega
    simp only [Transaction.deserialize, Res.monadBind_eq, List.append_assoc]
    rw [read_bytestring_append_assoc t.signature
      (t.header.serialize ++ (beBytes 4 p.length ++ (p ++ rest)))
      hsig, Res.bind_ok]
    rw [TransactionHeader_roundtrip t.header
      (beBytes 4 p.length ++ (p ++ rest)) hhdr, Res.bind_ok]
    rw [readU32_append (p ++ rest) hplen32, Res.bind_ok]
    simp only [hplen, if_true]
    rw [TransactionPayload_roundtrip t.payload p rest hpl hp, Res.bind_ok]
    have htake : (beBytes 8 t.signature.length ++ (t.signature ++
        (t.header.serialize ++ (beBytes 4 p.length ++ (p ++ rest))))).take
        ((beBytes 8 t.signature.length ++ (t.signature ++
          (t.header.serialize ++ (beBytes 4 p.length ++
            (p ++ rest))))).length - rest.length) =
        beBytes 8 t.signature.length ++ t.signature ++
          t.header.serialize ++ beBytes 4 p.length ++ p := by
      have hfull : beBytes 8 t.signature.length ++ (t.signature ++
          (t.header.serialize ++ (beBytes 4 p.length ++ (p ++ rest)))) =
          (beBytes 8 t.signature.length ++ t.signature ++
            t.header.serialize ++ beBytes 4 p.length ++ p) ++ rest := by
        simp [List.append_assoc]
      rw [hfull, List.length_append, Nat.add_sub_cancel, List.take_left]
    rw [htake]
    simp only [hashMatches, hp] at hhash
    have ht : t.hash = sha256 (beBytes 8 t.signature.length ++ t.signature ++
        t.header.serialize ++ beBytes 4 p.length ++ p) := by
      exact beq_iff_eq.mp hhash
    rw [← ht, Res.pure_eq]
  · simp [hashMatches, hp] at hhash
  · simp [hashMatches, hp] at hhash

theorem FullTransaction_roundtrip (tx : FullTransaction) (s rest : Bytes)
    (hwf : transactionWf tx.bare_transaction = true)
    (hs : tx.bare_transaction.serialize = .ok s) :
    FullTransaction.deserialize (s ++ rest) = .ok (tx, rest) := by
  simp only [FullTransaction.deserialize, Res.monadBind_eq]
  rw [Transaction_roundtrip tx.bare_transaction s rest hwf hs, Res.bind_ok]
  rfl

theorem serialize_list_length (txs : List FullTransaction) (ls : List Bytes)
    (hs : serialize_list txs = .ok ls) : ls.length = txs.length := by
  induction txs generalizing ls with
  | nil =>
    simp only [serialize_list, Res.ok.injEq] at hs
    subst hs; rfl
  | cons tx txs ih =>
    simp only [serialize_list, Res.monadBind_eq] at hs
    cases h1 : tx.bare_transaction.serialize with
    | ok e =>
      rw [h1, Res.bind_ok] at hs
      cases h2 : serialize_list txs with
      | ok es =>
        rw [h2, Res.bind_ok, Res.pure_eq, Res.ok.injEq] at hs
        subst hs
        simp [ih es h2]
      | err es => rw [h2, Res.bind_err] at hs; simp at hs
      | panic es => rw [h2, Res.bind_panic] at hs; simp at hs
    | err e => rw [h1, Res.bind_err] at hs; simp at hs
    | panic e => rw [h1, Res.bind_panic] at hs; simp at hs

theorem txlist_roundtrip (txs : List FullTransaction) :
    ∀ (ls : List Bytes) (rest : Bytes),
      (∀ tx ∈ txs, transactionWf tx.bare_transaction = true) →
      serialize_list txs = .ok ls →
      readCount FullTransaction.deserialize txs.length
        (ls.flatten ++ rest) = .ok (txs, rest) := by
  induction txs with
  | nil =>
    intro ls rest _ hs
    simp only [serialize_list, Res.ok.injEq] at hs
    subst hs
    simp [readCount]
  | cons tx txs ih =>
    intro ls rest hwf hs
    simp only [serialize_list, Res.monadBind_eq] at hs
    cases h1 : tx.bare_transaction.serialize with
    | ok e =>
      rw [h1, Res.bind_ok] at hs
      cases h2 : serialize_list txs with
      | ok es =>
        rw [h2, Res.bind_ok, Res.pure_eq, Res.ok.injEq] at hs
        subst hs
        simp only [List.length_cons, readCount, Res.monadBind_eq,
          List.flatten_cons, List.append_assoc]
        rw [FullTransaction_roundtrip tx e (es.flatten ++ rest)
          (hwf tx (List.mem_cons_self tx txs)) h1, Res.bind_ok]
        rw [ih es rest (fun x hx => hwf x (List.mem_cons_of_mem tx hx)) h2,
          Res.bind_ok]
        rfl
      | err es => rw [h2, Res.bind_err] at hs; simp at hs
      | panic es => rw [h2, Res.bind_panic] at hs; simp at hs
    | err e => rw [h1, Res.bind_err] at hs; simp at hs
    | panic e => rw [h1, Res.bind_panic] at hs; simp at hs

theorem Block_roundtrip (b : Block) (hwf : blockWf b) :
    Block.deserialize (Block.serial b) = .ok b := by
  obtain ⟨slot, data⟩ := b
  obtain ⟨hslot, hdata⟩ := hwf
  cases data with
  | Genesis g =>
    simp only at hdata
    subst hdata
    simp only [Block.serial, BlockData.serial, Block.deserialize,
      Res.monadBind_eq]
    rw [readBytes_exact_append (n := 8) (beBytes 8 0) g (beBytes_length 8 0),
      Res.bind_ok]
    rw [show beToNat (beBytes 8 0) = 0 from rfl]
    simp [BlockData.deserialize]
  | Regular d =>
    simp only at hdata hslot
    obtain ⟨hnz, hptr, hbaker, hproof, hnonce, hlf, hsiglen,
      txs, ls, htxwf, htxcount, htxser, htxbytes⟩ := hdata
    have hslot8 : slot < 256 ^ 8 := by norm_num at hslot ⊢; omega
    have hcount8 : txs.length < 256 ^ 8 := by
      have h262 : TX_ALLOC_LIMIT = 262144 := rfl
      rw [h262] at htxcount
      norm_num; omega
    simp only [Block.serial, BlockData.serial, Block.deserialize,
      Res.monadBind_eq, List.append_assoc]
    rw [readBytes_exact_append (n := 8) (beBytes 8 slot) _
      (beBytes_length 8 slot), Res.bind_ok]
    dsimp only
    rw [beToNat_beBytes_of_lt hslot8]
    simp only [BlockData.deserialize, if_neg hnz, Res.monadBind_eq]
    rw [readBytes_exact_append (n := 32) d.fields.pointer _ hptr,
      Res.bind_ok]
    dsimp only
    rw [readU64_append _ hbaker, Res.bind_ok]
    dsimp only
    rw [readBytes_exact_append (n := PROOF_LENGTH) d.fields.proof _ hproof,
      Res.bind_ok]
    dsimp only
    rw [readBytes_exact_append (n := PROOF_LENGTH) d.fields.nonce _ hnonce,
      Res.bind_ok]
    dsimp only
    rw [readBytes_exact_append (n := 32) d.fields.last_finalized _ hlf,
      Res.bind_ok]
    dsimp only
    rw [htxbytes]
    simp only [writeMultiple, serialize_list_length txs ls htxser,
      readMultiple, Res.monadBind_eq, List.append_assoc]
    rw [safeGetLen_append (ls.flatten ++
      write_bytestring_short_length d.signature) hcount8 htxcount,
      Res.bind_ok]
    dsimp only
    rw [show ls.flatten ++ write_bytestring_short_length d.signature =
      ls.flatten ++ (write_bytestring_short_length d.signature ++ []) by
        simp]
    rw [txlist_roundtrip txs ls (write_bytestring_short_length d.signature
      ++ []) htxwf htxser, Res.bind_ok]
    dsimp only
    rw [read_bytestring_short_length_write d.signature [] hsiglen,
      Res.bind_ok]
    dsimp only
    rw [htxser, Res.bind_ok]
    have htx2 : beBytes 8 txs.length ++ ls.flatten = d.transactions := by
      rw [htxbytes, writeMultiple, serialize_list_length txs ls htxser]
    simp only [writeMultiple, serialize_list_length txs ls htxser, htx2,
      Res.pure_eq, Res.ok.injEq, Block.mk.injEq]
    rfl

theorem readCount_hashes (js : List Bytes) :
    ∀ (rest : Bytes), (∀ j ∈ js, j.length = 32) →
      readCount (readBytes 32) js.length (js.flatten ++ rest) =
        .ok (js, rest) := by
  induction js with
  | nil => intro rest _; simp [readCount]
  | cons j js ih =>
    intro rest hlen
    simp only [List.length_cons, readCount, Res.monadBind_eq,
      List.flatten_cons, List.append_assoc]
    rw [readBytes_exact_append (n := 32) j (js.flatten ++ rest)
      (hlen j (List.mem_cons_self j js)), Res.bind_ok]
    rw [ih rest (fun x hx => hlen x (List.mem_cons_of_mem j hx)),
      Res.bind_ok]
    rfl

theorem CatchUpStatus_roundtrip (s : CatchUpStatus) (rest : Bytes)
    (hwf : catchUpWf s = true) :
    CatchUpStatus.deserial (s.serial ++ rest) = .ok (s, rest) := by
  obtain ⟨req, lfb, height, best, js⟩ := s
  simp only [catchUpWf, Bool.and_eq_true, decide_eq_true_eq,
    List.all_eq_true] at hwf
  obtain ⟨⟨⟨⟨hlfb, hh⟩, hbest⟩, hcount⟩, hjs⟩ := hwf
  simp only [CatchUpStatus.serial, CatchUpStatus.deserial, List.cons_append,
    readBytes_one, Res.monadBind_eq, Res.bind_ok, List.headD_cons,
    List.append_assoc]
  rw [readBytes_exact_append (n := 32) lfb _ hlfb, Res.bind_ok]
  rw [readU64_append _ hh, Res.bind_ok]
  rw [readBytes_exact_append (n := 32) best _ hbest, Res.bind_ok]
  simp only [readMultiple, Res.monadBind_eq]
  rw [safeGetLen_append (js.flatten ++ rest)
    (show js.length < 256 ^ 4 by norm_num; omega) hcount, Res.bind_ok]
  rw [readCount_hashes js rest (fun j hj => hjs j hj), Res.bind_ok]
  cases req <;> simp

/-! ## Claim C1: codec round trip -/

theorem header_zero_nonce_err (sb : Nat) (key nz rest : Bytes)
    (hkey : key.length ≤ 64 * 1024) (hnz8 : nz.length = 8)
    (hnz0 : beToNat nz = 0) :
    TransactionHeader.deserialize
        (sb :: (beBytes 8 key.length ++ (key ++ (nz ++ rest)))) =
      .err (if sb = 0 then CodecErr.zeroNonce
            else CodecErr.unknownSchemeId) := by
  simp only [TransactionHeader.deserialize, readBytes_one, Res.monadBind_eq,
    Res.bind_ok, List.headD_cons]
  by_cases hsb : sb = 0
  · subst hsb
    rw [show SchemeId.try_from 0 = .ok 0 from rfl, Res.bind_ok]
    rw [read_bytestring_append_assoc key (nz ++ rest) hkey, Res.bind_ok]
    simp only [readU64, Res.monadBind_eq]
    rw [readBytes_exact_append (n := 8) nz rest hnz8, Res.bind_ok]
    simp only [Res.pure_eq, Res.bind_ok, hnz0]
    rw [show Nonce.try_from 0 = .err .zeroNonce from rfl, Res.bind_err]
    simp
  · rw [show SchemeId.try_from sb = .err .unknownSchemeId by
      simp [SchemeId.try_from, hsb], Res.bind_err]
    simp [hsb]

/-- Claim C6: for every input byte string whose transaction-header nonce
field is the integer 0, `TransactionHeader::deserialize` (and hence
`Transaction::deserialize`) returns an error rather than a transaction
value: the zero-nonce error when the scheme id parses, the unknown-scheme
error otherwise. -/
theorem claim_C6 :
    (∀ (sb : Nat) (key nz rest : Bytes), key.length ≤ 64 * 1024 →
      nz.length = 8 → beToNat nz = 0 →
      TransactionHeader.deserialize
          (sb :: (beBytes 8 key.length ++ (key ++ (nz ++ rest)))) =
        .err (if sb = 0 then CodecErr.zeroNonce
              else CodecErr.unknownSchemeId)) ∧
    (∀ (sig : Bytes) (sb : Nat) (key nz rest : Bytes),
      sig.length ≤ 64 * 1024 → key.length ≤ 64 * 1024 → nz.length = 8 →
      beToNat nz = 0 →
      Transaction.deserialize (beBytes 8 sig.length ++ (sig ++ (sb ::
          (beBytes 8 key.length ++ (key ++ (nz ++ rest)))))) =
        .err (if sb = 0 then CodecErr.zeroNonce
              else CodecErr.unknownSchemeId)) := by
  refine ⟨header_zero_nonce_err, ?_⟩
  intro sig sb key nz rest hsig hkey hnz8 hnz0
  simp only [Transaction.deserialize, Res.monadBind_eq]
  rw [read_bytestring_append_assoc sig _ hsig, Res.bind_ok]
  dsimp only
  rw [header_zero_nonce_err sb key nz rest hkey hnz8 hnz0, Res.bind_err]

/-- Witness for C6 at a concrete input: empty signature and key, scheme id
`0`, and a zero nonce field. -/
theorem claim_C6_witness :
    TransactionHeader.deserialize
        (0 :: (beBytes 8 (List.length ([] : Bytes)) ++ ([] ++
          (beBytes 8 0 ++ [])))) = .err CodecErr.zeroNonce ∧
    Transaction.deserialize (beBytes 8 (List.length ([] : Bytes)) ++ ([] ++
        (0 :: (beBytes 8 (List.length ([] : Bytes)) ++ ([] ++
          (beBytes 8 0 ++ [])))))) = .err CodecErr.zeroNonce := by
  constructor
  · have h := claim_C6.1 0 [] (beBytes 8 0) [] (by decide) (by decide)
      (by decide)
    simpa using h
  · have h := claim_C6.2 [] 0 [] (beBytes 8 0) [] (by decide) (by decide)
      (by decide) (by decide)
    simpa using h

/-- Claim C7: for every input byte string whose transaction `payload_len`
field exceeds `PAYLOAD_MAX_LEN = 512·2^20`, `Transaction::deserialize`
returns the payload-size error rather than a transaction value. -/
theorem claim_C7 (sig : Bytes) (h : TransactionHeader) (plB rest : Bytes)
    (hsig : sig.length ≤ 64 * 1024) (hh : headerWf h = true)
    (hpl4 : plB.length = 4) (hbig : PAYLOAD_MAX_LEN < beToNat plB) :
    Transaction.deserialize (beBytes 8 sig.length ++ (sig ++
        (h.serialize ++ (plB ++ rest)))) = .err .payloadTooBig := by
  simp only [Transaction.deserialize, Res.monadBind_eq]
  rw [read_bytestring_append_assoc sig _ hsig, Res.bind_ok]
  dsimp only
  rw [TransactionHeader_roundtrip h (plB ++ rest) hh, Res.bind_ok]
  dsimp only
  simp only [readU32, Res.monadBind_eq]
  rw [readBytes_exact_append (n := 4) plB rest hpl4, Res.bind_ok]
  simp only [Res.pure_eq, Res.bind_ok]
  rw [if_neg (by omega)]

/-- Concrete transaction header used by several witnesses. -/
def t0hdr : TransactionHeader :=
  { scheme_id := 0, sender_key := [1], nonce := ⟨3⟩, gas_amount := 2,
    finalized_ptr := List.replicate 32 0,
    sender_account := accountAddressFrom [1] 0 }

/-- Witness for C7 at a concrete input: a declared payload length of
`512·2^20 + 1`. -/
theorem claim_C7_witness :
    Transaction.deserialize (beBytes 8 (List.length ([7] : Bytes)) ++ ([7] ++
        (t0hdr.serialize ++ (beBytes 4 536870913 ++ [])))) =
      .err .payloadTooBig := by
  exact claim_C7 [7] t0hdr (beBytes 4 536870913) [] (by decide) (by decide)
    (by decide) (by decide)

/-- Concrete wire-representable transaction used by the C1 witness. -/
def t0payloadBytes : Bytes :=
  3 :: (beBytes 1 0 ++ List.replicate 21 5 ++ beBytes 8 9)

/-- Concrete wire-representable transaction used by the C1 witness; its
hash field is the SHA-256 of its own serialization, as the deserializer
computes it. -/
def t0 : Transaction :=
  { signature := [7], header := t0hdr,
    payload := .Transfer 0 (List.replicate 21 5) 9,
    hash := sha256 (beBytes 8 1 ++ [7] ++ t0hdr.serialize ++ beBytes 4 31 ++
      t0payloadBytes) }

/-- Serialization of `t0`. -/
def tBytes0 : Bytes :=
  beBytes 8 1 ++ [7] ++ t0hdr.serialize ++ beBytes 4 31 ++ t0payloadBytes

/-- Claim C1 (amended): the codec round-trips on well-formed values — block
variant matching the slot, wire bounds respected, supported payload
variants — and on the byte strings that are serializations of such values;
on arbitrary typed values the claim fails (see the counterexample). -/
theorem claim_C1 :
    (∀ b : Block, blockWf b → Block.deserialize (Block.serial b) = .ok b) ∧
    (∀ (t : Transaction) (s rest : Bytes), transactionWf t = true →
      t.serialize = .ok s →
      Transaction.deserialize (s ++ rest) = .ok (t, rest)) ∧
    (∀ (c : CatchUpStatus) (rest : Bytes), catchUpWf c = true →
      CatchUpStatus.deserial (c.serial ++ rest) = .ok (c, rest)) ∧
    (∀ bytes : Bytes, (∃ b, blockWf b ∧ Block.serial b = bytes) →
      ∃ b, Block.deserialize bytes = .ok b ∧ Block.serial b = bytes) ∧
    (∀ bytes : Bytes,
      (∃ t, transactionWf t = true ∧ t.serialize = .ok bytes) →
      ∃ t, Transaction.deserialize bytes = .ok (t, []) ∧
        t.serialize = .ok bytes) ∧
    (∀ bytes : Bytes, (∃ c, catchUpWf c = true ∧ c.serial = bytes) →
      ∃ c, CatchUpStatus.deserial bytes = .ok (c, []) ∧
        c.serial = bytes) := by
  refine ⟨Block_roundtrip, Transaction_roundtrip, CatchUpStatus_roundtrip,
    ?_, ?_, ?_⟩
  · rintro bytes ⟨b, hwf, rfl⟩
    exact ⟨b, Block_roundtrip b hwf, rfl⟩
  · rintro bytes ⟨t, hwf, hs⟩
    refine ⟨t, ?_, hs⟩
    have h := Transaction_roundtrip t bytes [] hwf hs
    simpa using h
  · rintro bytes ⟨c, hwf, rfl⟩
    have h := CatchUpStatus_roundtrip c [] hwf
    exact ⟨c, by simpa using h, rfl⟩

set_option maxRecDepth 100000 in
/-- Witness for C1 at concrete inputs: a genesis block, the transaction
`t0`, and a catch-up status with one justifier. -/
theorem claim_C1_witness :
    Block.deserialize (Block.serial { slot := 0, data := .Genesis [7] }) =
      .ok { slot := 0, data := .Genesis [7] } ∧
    Transaction.deserialize (tBytes0 ++ []) = .ok (t0, []) ∧
    CatchUpStatus.deserial (CatchUpStatus.serial
        { is_request := true, last_finalized_block := List.replicate 32 1,
          last_finalized_height := 5, best_block := List.replicate 32 2,
          finalization_justifiers := [List.replicate 32 3] } ++ [9]) =
      .ok ({ is_request := true,
             last_finalized_block := List.replicate 32 1,
             last_finalized_height := 5, best_block := List.replicate 32 2,
             finalization_justifiers := [List.replicate 32 3] }, [9]) := by
  refine ⟨claim_C1.1 _ ⟨by norm_num, rfl⟩, ?_, claim_C1.2.2.1 _ [9]
    (by decide)⟩
  exact claim_C1.2.1 t0 tBytes0 [] (by decide) (by decide)

/-- Counterexample for C1 as stated: the typed value
`Block { slot: 1, data: Genesis [] }` (constructible in Rust, since nothing
ties the variant to the slot) does not survive the round trip — slot 1
sends the deserializer into the regular branch, which fails on the empty
body, so the result is an error and not the value itself. -/
theorem claim_C1_counterexample :
    Block.deserialize (Block.serial { slot := 1, data := .Genesis [] }) =
      .err .truncated ∧
    Block.deserialize (Block.serial { slot := 1, data := .Genesis [] }) ≠
      .ok { slot := 1, data := .Genesis [] } := by
  constructor
  · decide
  · decide

/-! ## Claim C9: genesis input panics `PendingBlock::new` -/

/-- Claim C9: on any input whose first 8 bytes (the slot field) are zero —
i.e. a genesis block — `PendingBlock::new` panics in
`hash_without_timestamps` (the `unreachable!()` arm) instead of returning
the error branch of its `Fallible` result. -/
theorem claim_C9 (bytes : Bytes) (hlen : 8 ≤ bytes.length)
    (hzero : bytes.take 8 = List.replicate 8 0) :
    PendingBlock.new bytes = .panic .genesisPendingBlock := by
  simp only [PendingBlock.new, Block.deserialize, Res.monadBind_eq]
  rw [show readBytes 8 bytes = .ok (bytes.take 8, bytes.drop 8) by
    simp [readBytes, hlen], Res.bind_ok]
  try dsimp only
  rw [hzero, show beToNat (List.replicate 8 0) = 0 from rfl]
  rw [show BlockData.deserialize 0 (bytes.drop 8) =
    .ok (.Genesis (bytes.drop 8), []) by simp [BlockData.deserialize]]
  simp [hash_without_timestamps]

/-- Witness for C9 at the 8-zero-byte input. -/
theorem claim_C9_witness :
    PendingBlock.new (List.replicate 8 0) = .panic .genesisPendingBlock :=
  claim_C9 (List.replicate 8 0) (by decide) (by decide)

/-! ## Connection state machine (`src/connection/connection.rs`)

The per-connection framer: TLS plaintext arrives in chunks through
`incoming_plaintext`, which maintains `expected_size` / `currently_read` /
`pkt_buffer` and hands complete frames to `process_complete_packet`.  The
embedding keeps the observable hand-off trace in the ghost field
`delivered`. -/

/-- `PeerType` (`src/common`). -/
inductive PeerType where
  | Node
  | Bootstrapper
deriving DecidableEq, Repr

/-- `ConnectionStatus` (`connection.rs` lines 82–86). -/
inductive ConnectionStatus where
  | Untrusted
  | Established
deriving DecidableEq, Repr

/-- Error values on the connection read path (`connection/fails.rs`), plus a
distinguished panic for the `&buf[..PROTOCOL_MESSAGE_TYPE_LENGTH]` slice
when the buffer is shorter than the slice. -/
inductive ConnErr where
  /-- `fails::PeerError` -/
  | peerError (message : String)
  /-- `fails::UnwantedMessageError` -/
  | unwantedMessage (message : String)
  /-- out-of-range slice panic -/
  | sliceOutOfRange
deriving DecidableEq, Repr

instance {ε α : Type} [DecidableEq ε] [DecidableEq α] :
    DecidableEq (Except ε α)
  | .ok x, .ok y =>
      if h : x = y then .isTrue (by rw [h])
      else .isFalse (by intro hc; cases hc; exact h rfl)
  | .error x, .error y =>
      if h : x = y then .isTrue (by rw [h])
      else .isFalse (by intro hc; cases hc; exact h rfl)
  | .ok _, .error _ => .isFalse (by intro hc; cases hc)
  | .error _, .ok _ => .isFalse (by intro hc; cases hc)

/-- Modelled from the spec: the protocol-message-type code is 2 bytes. -/
def PROTOCOL_MESSAGE_TYPE_LENGTH : Nat := 2

/-- Modelled from the spec: the fixed-length ASCII protocol header that
precedes the message-type code ("the first few bytes are an ASCII protocol
header (fixed-length version tag)"); its exact length is declared outside
`src/` and none of the claims depends on the value, fixed here at 16. -/
def PROTOCOL_HEADER_LENGTH : Nat := 16

/-- Modelled from the spec: the offset past the header and message type. -/
def PROTOCOL_MESSAGE_LENGTH : Nat :=
  PROTOCOL_HEADER_LENGTH + PROTOCOL_MESSAGE_TYPE_LENGTH

/-- The closed set of protocol message types (spec §6). -/
inductive ProtocolMessageType where
  | Ping | Pong | FindNode | FindNodeResponse | GetPeers | PeerList
  | JoinNetwork | LeaveNetwork | Handshake | BanNode | UnbanNode
  | DirectMessage | BroadcastedMessage | Retransmit
deriving DecidableEq, Repr

/-- Modelled from the spec: the two-byte wire code of each message type (two
ASCII digits; the concrete values are declared outside `src/` and only the
closed set and distinctness matter to the claims). -/
def ProtocolMessageType.code : ProtocolMessageType → Bytes
  | .Ping => [48, 49]
  | .Pong => [48, 50]
  | .FindNode => [48, 51]
  | .FindNodeResponse => [48, 52]
  | .GetPeers => [48, 53]
  | .PeerList => [48, 54]
  | .JoinNetwork => [48, 55]
  | .LeaveNetwork => [48, 56]
  | .Handshake => [48, 57]
  | .BanNode => [49, 48]
  | .UnbanNode => [49, 49]
  | .DirectMessage => [49, 50]
  | .BroadcastedMessage => [49, 51]
  | .Retransmit => [49, 52]

/-- Modelled from the spec: `ProtocolMessageType::try_from(&str)`; `none`
covers both an unknown code and bytes that are not valid UTF-8 (either way
`validate_packet_type` falls through to acceptance). -/
def ProtocolMessageType.try_from (bs : Bytes) : Option ProtocolMessageType :=
  if bs = [48, 49] then some .Ping
  else if bs = [48, 50] then some .Pong
  else if bs = [48, 51] then some .FindNode
  else if bs = [48, 52] then some .FindNodeResponse
  else if bs = [48, 53] then some .GetPeers
  else if bs = [48, 54] then some .PeerList
  else if bs = [48, 55] then some .JoinNetwork
  else if bs = [48, 56] then some .LeaveNetwork
  else if bs = [48, 57] then some .Handshake
  else if bs = [49, 48] then some .BanNode
  else if bs = [49, 49] then some .UnbanNode
  else if bs = [49, 50] then some .DirectMessage
  else if bs = [49, 51] then some .BroadcastedMessage
  else if bs = [49, 52] then some .Retransmit
  else none

/-- The state of one `Connection` (`connection.rs` lines 88–110), restricted
to the fields the framing, validation and write paths touch.  `tlsOut`
models the bytes buffered inside the TLS session by `write_all`;
`socketOut` the bytes flushed to the socket; `delivered` is the ghost trace
of complete frames handed to `process_complete_packet`. -/
structure Conn where
  closing : Bool
  closed : Bool
  currently_read : Nat
  pkt_validated : Bool
  pkt_valid : Bool
  expected_size : Nat
  pkt_buffer : Option Bytes
  messages_sent : Nat
  messages_received : Nat
  status : ConnectionStatus
  localPeerType : PeerType
  tlsOut : Bytes
  socketOut : Bytes
  delivered : List Bytes
deriving DecidableEq, Repr

/-- A fresh connection as `Connection::new` initializes it (lines 139–157). -/
def freshConn (pt : PeerType) : Conn :=
  { closing := false, closed := false, currently_read := 0,
    pkt_validated := false, pkt_valid := false, expected_size := 0,
    pkt_buffer := none, messages_sent := 0, messages_received := 0,
    status := .Untrusted, localPeerType := pt, tlsOut := [],
    socketOut := [], delivered := [] }

/-- `Connection::append_buffer` (lines 327–333): only appends when a buffer
is set up; `currently_read` is a `u32`. -/
def Conn.append_buffer (c : Conn) (new_data : Bytes) : Conn :=
  match c.pkt_buffer with
  | some buf =>
      { c with pkt_buffer := some (buf ++ new_data),
               currently_read :=
                 (c.currently_read + new_data.length) % 2 ^ 32 }
  | none => c

/-- `Connection::update_buffer_read_stats` (line 335). -/
def Conn.update_buffer_read_stats (c : Conn) (n : Nat) : Conn :=
  { c with currently_read := (c.currently_read + n) % 2 ^ 32 }

/-- `Connection::clear_buffer` (lines 345–354). -/
def Conn.clear_buffer (c : Conn) : Conn :=
  { c with currently_read := 0, expected_size := 0, pkt_buffer := none,
           pkt_valid := false, pkt_validated := false }

/-- `Connection::setup_buffer` (lines 366–370). -/
def Conn.setup_buffer (c : Conn) : Conn :=
  { c with pkt_buffer := some [], pkt_valid := false,
           pkt_validated := false }

/-- `Connection::close` (line 388): cooperative, only sets the flag. -/
def Conn.close (c : Conn) : Conn := { c with closing := true }

/-- `Connection::get_messages_sent` (line 343). -/
def Conn.get_messages_sent (c : Conn) : Nat := c.messages_sent

/-- `Connection::validate_packet_type` (lines 510–523): only a Bootstrapper
inspects the 2-byte code; `DirectMessage` / `BroadcastedMessage` fail with
`fails::PeerError`, everything else — including undecodable codes — is
accepted.  Slicing `&buf[..2]` of a shorter buffer is an index panic. -/
def validate_packet_type (pt : PeerType) (buf : Bytes) :
    Except ConnErr Unit :=
  if pt = .Bootstrapper then
    if buf.length < PROTOCOL_MESSAGE_TYPE_LENGTH then
      .error .sliceOutOfRange
    else
      match ProtocolMessageType.try_from
          (buf.take PROTOCOL_MESSAGE_TYPE_LENGTH) with
      | some .DirectMessage | some .BroadcastedMessage =>
          .error (.peerError "Wrong data type message received for node")
      | _ => .ok ()
  else .ok ()

/-- `Connection::validate_packet` (lines 525–547): once the buffer holds at
least `PROTOCOL_MESSAGE_LENGTH` bytes, the type slice is checked; on
rejection the buffer is dropped and the connection closed, otherwise the
packet is marked valid and validated. -/
def Conn.validate_packet (c : Conn) : Conn :=
  if c.pkt_validated then c
  else
    let buff := match c.pkt_buffer with
      | some bytebuf =>
          if PROTOCOL_MESSAGE_LENGTH ≤ bytebuf.length then
            some ((bytebuf.drop PROTOCOL_HEADER_LENGTH).take
              PROTOCOL_MESSAGE_TYPE_LENGTH)
          else none
      | none => none
    match buff with
    | some bufdata =>
        match validate_packet_type c.localPeerType bufdata with
        | .error _ => c.clear_buffer.close
        | .ok _ => { c with pkt_valid := true, pkt_validated := true }
    | none => c

/-- `Connection::process_complete_packet` (lines 491–508).  Modelled from
the spec: message deserialization and the handler graph live behind this
call and return success here; the hand-off itself (the claim-relevant
observable) is recorded in `delivered`, and `messages_received` counts
up. -/
def Conn.process_complete_packet (c : Conn) (buf : Bytes) :
    Conn × Except ConnErr Unit :=
  ({ c with messages_received := (c.messages_received + 1) % 2 ^ 64,
            delivered := c.delivered ++ [buf] }, .ok ())

/-- The `drop_conn_if_unwanted!` macro (lines 50–80): only an
`UnwantedMessageError` closes; other handler errors are logged; on success
an `Untrusted` connection completes its handshake and becomes
`Established`. -/
def Conn.drop_conn_if_unwanted (c : Conn) (r : Except ConnErr Unit) : Conn :=
  match r with
  | .error (.unwantedMessage _) => c.close
  | .error _ => c
  | .ok _ =>
      if c.status = .Untrusted then { c with status := .Established } else c

/-- The complete-frame block shared by the three delivery sites of
`incoming_plaintext`: copy the buffer, re-check the packet type (an error
propagates out through `?`), process, and run `drop_conn_if_unwanted!`. -/
def Conn.finishPacket (c : Conn) : Conn × Except ConnErr Unit :=
  let buffered := c.pkt_buffer.getD []
  match validate_packet_type c.localPeerType buffered with
  | .error e => (c, .error e)
  | .ok _ =>
      let pr := c.process_complete_packet buffered
      (Conn.drop_conn_if_unwanted pr.1 pr.2, .ok ())

/-- One evaluation step of `Connection::incoming_plaintext` (lines
549–626), with the recursive call abstracted as `recur`.  Branches in
source order: entry validation; an already-complete packet; a chunk that
fits the expected frame; a chunk that crosses a frame boundary; a 4-byte
length header, discarded (and resynchronized past the header) when its
value exceeds 256 MiB; fewer than 4 bytes while awaiting a header are
dropped. -/
def ipStep (recur : Conn → Bytes → Conn × Except ConnErr Unit)
    (c : Conn) (buf : Bytes) : Conn × Except ConnErr Unit :=
  let c := c.validate_packet
  if 0 < c.expected_size ∧ c.currently_read = c.expected_size then
    match (if c.pkt_valid ∨ ¬c.pkt_validated then c.finishPacket
           else (c, .ok ())) with
    | (c, .ok _) => recur c.clear_buffer buf
    | (c, .error e) => (c, .error e)
  else if 0 < c.expected_size ∧
      buf.length ≤ (c.expected_size + 2 ^ 64 - c.currently_read) % 2 ^ 64
      then
    let c := if c.pkt_valid ∨ ¬c.pkt_validated then c.append_buffer buf
             else c.update_buffer_read_stats (buf.length % 2 ^ 32)
    if c.expected_size = c.currently_read then
      match (if c.pkt_valid ∨ ¬c.pkt_validated then c.finishPacket
             else (c, .ok ())) with
      | (c, .ok _) => (c.clear_buffer, .ok ())
      | (c, .error e) => (c, .error e)
    else (c, .ok ())
  else if 0 < c.expected_size ∧
      (c.expected_size + 2 ^ 64 - c.currently_read) % 2 ^ 64 < buf.length
      then
    let to_take := subU32 c.expected_size c.currently_read
    if c.pkt_valid ∨ ¬c.pkt_validated then
      let c := c.append_buffer (buf.take to_take)
      match c.finishPacket with
      | (c, .ok _) => recur c.clear_buffer (buf.drop to_take)
      | (c, .error e) => (c, .error e)
    else recur c.clear_buffer (buf.drop to_take)
  else if 4 ≤ buf.length then
    let n := beToNat (buf.take 4)
    if 268435456 < n then
      recur { c with expected_size := 0 } (buf.drop 4)
    else
      let c := Conn.setup_buffer { c with expected_size := n }
      if 4 < buf.length then recur c (buf.drop 4)
      else (c, .ok ())
  else (c, .ok ())

/-- `Connection::incoming_plaintext` as iterated `ipStep`, with an explicit
recursion-depth fuel; fuel above the measure `2·|buf| + 1` never runs out
(`incoming_plaintextF_stable`). -/
def incoming_plaintextF : Nat → Conn → Bytes → Conn × Except ConnErr Unit
  | 0, c, _ => (c, .ok ())
  | fuel + 1, c, buf => ipStep (incoming_plaintextF fuel) c buf

/-- `Connection::incoming_plaintext` at its sufficient fuel. -/
def incoming_plaintext (c : Conn) (buf : Bytes) :
    Conn × Except ConnErr Unit :=
  incoming_plaintextF (2 * buf.length + 1) c buf

/-- `Connection::write_to_tls` (lines 484–487): bump the per-connection
`messages_sent` counter (a `u64`) and buffer the bytes in the TLS
session. -/
def Conn.write_to_tls (c : Conn) (bytes : Bytes) : Conn :=
  { c with messages_sent := (c.messages_sent + 1) % 2 ^ 64,
           tlsOut := c.tlsOut ++ bytes }

/-- `Connection::flush_tls` (lines 641–675): when the session wants a write
and the connection is neither closed nor closing, the pending session bytes
go out on the socket; transient I/O failures are external and not
modelled. -/
def Conn.flush_tls (c : Conn) : Conn × Nat :=
  if c.tlsOut ≠ [] ∧ ¬c.closed ∧ ¬c.closing then
    ({ c with tlsOut := [], socketOut := c.socketOut ++ c.tlsOut },
      c.tlsOut.length)
  else (c, 0)

/-- `Connection::serialize_bytes` (lines 628–637): write the 4-byte length
prefix, then the payload, then flush. -/
def Conn.serialize_bytes (c : Conn) (pkt : Bytes) : Conn × Nat :=
  let sizeVec := beBytes 4 pkt.length
  let c := c.write_to_tls sizeVec
  let c := c.write_to_tls pkt
  c.flush_tls

/-! ## Claim C10: `serialize_bytes` counts two sends per packet -/

/-- Claim C10: every (successful) `serialize_bytes(pkt)` call increases the
per-connection `messages_sent` counter — as observed through
`get_messages_sent` — by exactly 2, because `write_to_tls` counts once for
the 4-byte length prefix and once for the payload. -/
theorem claim_C10 (c : Conn) (pkt : Bytes)
    (h : c.messages_sent + 2 < 2 ^ 64) :
    (c.serialize_bytes pkt).1.get_messages_sent =
      c.get_messages_sent + 2 := by
  simp only [Conn.serialize_bytes, Conn.write_to_tls, Conn.flush_tls,
    Conn.get_messages_sent]
  split <;> simp <;> omega

/-- Witness for C10 on a fresh connection and a 2-byte packet. -/
theorem claim_C10_witness :
    ((freshConn PeerType.Node).serialize_bytes [1, 2]).1.get_messages_sent =
      (freshConn PeerType.Node).get_messages_sent + 2 :=
  claim_C10 (freshConn PeerType.Node) [1, 2] (by decide)

/-! ## Claim C3: the Bootstrapper packet gate -/

/-- The 19-byte frame (16-byte header, `DirectMessage` code, 1 payload
byte) used by the C3 scenarios. -/
def dmFrame : Bytes := List.replicate 16 65 ++ [49, 50] ++ [1]

/-- Claim C3 (amended): on a Bootstrapper, `validate_packet_type` rejects a
`DirectMessage` / `BroadcastedMessage` code with `fails::PeerError` — not
`UnwantedMessageError` — and `validate_packet` then closes the connection
once such a frame sits (with at least `PROTOCOL_MESSAGE_LENGTH` bytes) in
the packet buffer; frames with any other code pass the gate. -/
theorem claim_C3 :
    (∀ buf : Bytes, PROTOCOL_MESSAGE_TYPE_LENGTH ≤ buf.length →
      (ProtocolMessageType.try_from
          (buf.take PROTOCOL_MESSAGE_TYPE_LENGTH) =
            some .DirectMessage ∨
        ProtocolMessageType.try_from
          (buf.take PROTOCOL_MESSAGE_TYPE_LENGTH) =
            some .BroadcastedMessage) →
      validate_packet_type .Bootstrapper buf =
        .error (.peerError "Wrong data type message received for node")) ∧
    (∀ (c : Conn) (b : Bytes), c.localPeerType = .Bootstrapper →
      c.pkt_validated = false → c.pkt_buffer = some b →
      PROTOCOL_MESSAGE_LENGTH ≤ b.length →
      (ProtocolMessageType.try_from ((b.drop PROTOCOL_HEADER_LENGTH).take
          PROTOCOL_MESSAGE_TYPE_LENGTH) = some .DirectMessage ∨
        ProtocolMessageType.try_from ((b.drop PROTOCOL_HEADER_LENGTH).take
          PROTOCOL_MESSAGE_TYPE_LENGTH) = some .BroadcastedMessage) →
      c.validate_packet.closing = true ∧
        c.validate_packet.pkt_buffer = none) ∧
    (∀ (pt : PeerType) (buf : Bytes),
      PROTOCOL_MESSAGE_TYPE_LENGTH ≤ buf.length →
      ¬(ProtocolMessageType.try_from
          (buf.take PROTOCOL_MESSAGE_TYPE_LENGTH) =
            some .DirectMessage ∨
        ProtocolMessageType.try_from
          (buf.take PROTOCOL_MESSAGE_TYPE_LENGTH) =
            some .BroadcastedMessage) →
      validate_packet_type pt buf = .ok ()) := by
  have gate : ∀ buf : Bytes, PROTOCOL_MESSAGE_TYPE_LENGTH ≤ buf.length →
      (ProtocolMessageType.try_from
          (buf.take PROTOCOL_MESSAGE_TYPE_LENGTH) =
            some .DirectMessage ∨
        ProtocolMessageType.try_from
          (buf.take PROTOCOL_MESSAGE_TYPE_LENGTH) =
            some .BroadcastedMessage) →
      validate_packet_type .Bootstrapper buf =
        .error (.peerError "Wrong data type message received for node") := by
    intro buf hlen htag
    simp only [validate_packet_type, if_pos rfl, Nat.not_lt.mpr hlen,
      if_neg (Nat.not_lt.mpr hlen)]
    rcases htag with h | h <;> rw [h] <;> simp
  refine ⟨gate, ?_, ?_⟩
  · intro c b hpt hval hbuf hlen htag
    have hslice : PROTOCOL_MESSAGE_TYPE_LENGTH ≤
        ((b.drop PROTOCOL_HEADER_LENGTH).take
          PROTOCOL_MESSAGE_TYPE_LENGTH).length := by
      simp only [List.length_take, List.length_drop]
      have : PROTOCOL_MESSAGE_LENGTH =
          PROTOCOL_HEADER_LENGTH + PROTOCOL_MESSAGE_TYPE_LENGTH := rfl
      omega
    have htake : ((b.drop PROTOCOL_HEADER_LENGTH).take
        PROTOCOL_MESSAGE_TYPE_LENGTH).take PROTOCOL_MESSAGE_TYPE_LENGTH =
        (b.drop PROTOCOL_HEADER_LENGTH).take
          PROTOCOL_MESSAGE_TYPE_LENGTH :=
      List.take_of_length_le (by simp [List.length_take])
    have hv := gate ((b.drop PROTOCOL_HEADER_LENGTH).take
      PROTOCOL_MESSAGE_TYPE_LENGTH) hslice (by rw [htake]; exact htag)
    constructor <;>
      simp [Conn.validate_packet, hval, hbuf, hlen, hpt, hv,
        Conn.clear_buffer, Conn.close]
  · intro pt buf hlen htag
    push_neg at htag
    obtain ⟨h1, h2⟩ := htag
    cases pt with
    | Node => simp [validate_packet_type]
    | Bootstrapper =>
      simp only [validate_packet_type, if_pos rfl,
        if_neg (Nat.not_lt.mpr hlen)]
      rcases h : ProtocolMessageType.try_from
          (buf.take PROTOCOL_MESSAGE_TYPE_LENGTH) with _ | pm
      · rfl
      · cases pm <;> first | rfl | (exact absurd h h1) | (exact absurd h h2)

/-- Witness for C3 at concrete inputs: a Broadcast code, a buffered
`DirectMessage` frame on a Bootstrapper, and a Ping code. -/
theorem claim_C3_witness :
    validate_packet_type .Bootstrapper [49, 51] =
      .error (.peerError "Wrong data type message received for node") ∧
    ({ freshConn .Bootstrapper with
        pkt_buffer := some dmFrame } : Conn).validate_packet.closing =
      true ∧
    validate_packet_type .Bootstrapper [48, 49] = .ok () := by
  refine ⟨claim_C3.1 [49, 51] (by decide) (Or.inr (by decide)), ?_, ?_⟩
  · exact (claim_C3.2.1 { freshConn .Bootstrapper with
      pkt_buffer := some dmFrame } dmFrame rfl rfl rfl (by decide)
      (Or.inl (by decide))).1
  · exact claim_C3.2.2 .Bootstrapper [48, 49] (by decide) (by decide)

/-! ### Fuel stability of the framer

`incoming_plaintextF` ignores its fuel argument as long as the fuel exceeds
the recursion measure `2·|buf| + (1 if a complete frame is pending at
entry)`; on every state the framer can actually be in when a read arrives
(`currently_read < expected_size` whenever a frame is open) the wrapper's
`2·|buf| + 1` therefore computes the full recursion. -/

/-- Recursion measure of `incoming_plaintext`: every recursive call either
shortens the buffer or discharges an entry-complete frame. -/
def ipMeasure (c : Conn) (buf : Bytes) : Nat :=
  2 * buf.length +
    (if 0 < c.expected_size ∧ c.currently_read = c.expected_size then 1
     else 0)

theorem validate_packet_fields (c : Conn) :
    (c.validate_packet.expected_size = c.expected_size ∧
      c.validate_packet.currently_read = c.currently_read) ∨
    (c.validate_packet.expected_size = 0 ∧
      c.validate_packet.currently_read = 0) := by
  unfold Conn.validate_packet
  by_cases h : c.pkt_validated
  · rw [if_pos h]
    exact Or.inl ⟨rfl, rfl⟩
  · rw [if_neg h]
    rcases hb : c.pkt_buffer with _ | bytebuf
    · simp only [hb]
      left
      constructor <;> trivial
    · simp only [hb]
      by_cases hl : PROTOCOL_MESSAGE_LENGTH ≤ bytebuf.length
      · simp only [if_pos hl]
        cases hv : validate_packet_type c.localPeerType
            ((bytebuf.drop PROTOCOL_HEADER_LENGTH).take
              PROTOCOL_MESSAGE_TYPE_LENGTH) with
        | error e =>
          simp only [hv]
          right
          constructor <;> trivial
        | ok u =>
          simp only [hv]
          left
          constructor <;> trivial
      · simp only [if_neg hl]
        left
        constructor <;> trivial

theorem validate_packet_of_none (c : Conn) (hb : c.pkt_buffer = none) :
    c.validate_packet = c := by
  unfold Conn.validate_packet
  rw [hb]
  split <;> rfl

theorem beToNat_lt (bs : Bytes) (hb : ∀ x ∈ bs, x < 256) :
    beToNat bs < 256 ^ bs.length := by
  induction bs with
  | nil => simp [beToNat]
  | cons x xs ih =>
    have hx : x < 256 := hb x (List.mem_cons_self x xs)
    have hxs := ih (fun y hy => hb y (List.mem_cons_of_mem x hy))
    simp only [beToNat, List.length_cons, pow_succ]
    calc x * 256 ^ xs.length + beToNat xs
        < x * 256 ^ xs.length + 256 ^ xs.length := by omega
      _ = (x + 1) * 256 ^ xs.length := by ring
      _ ≤ 256 * 256 ^ xs.length := by
          exact Nat.mul_le_mul_right _ (by omega)
      _ = 256 ^ xs.length * 256 := by ring

theorem ipStep_congr (r₁ r₂ : Conn → Bytes → Conn × Except ConnErr Unit)
    (c : Conn) (buf : Bytes)
    (hr : c.currently_read < 2 ^ 32) (he : c.expected_size < 2 ^ 32)
    (ih : ∀ c2 buf2, c2.currently_read < 2 ^ 32 →
      c2.expected_size < 2 ^ 32 → ipMeasure c2 buf2 < ipMeasure c buf →
      r₁ c2 buf2 = r₂ c2 buf2) :
    ipStep r₁ c buf = ipStep r₂ c buf := by
  unfold ipStep
  have hfields := validate_packet_fields c
  have hcvb : c.validate_packet.currently_read < 2 ^ 32 ∧
      c.validate_packet.expected_size < 2 ^ 32 := by
    rcases hfields with ⟨e1, e2⟩ | ⟨e1, e2⟩ <;> rw [e1, e2] <;>
      first
        | exact ⟨hr, he⟩
        | exact ⟨by norm_num, by norm_num⟩
  by_cases h1 : 0 < c.validate_packet.expected_size ∧
      c.validate_packet.currently_read = c.validate_packet.expected_size
  · simp only [if_pos h1]
    have hflag : ipMeasure c buf = 2 * buf.length + 1 := by
      unfold ipMeasure
      rcases hfields with ⟨e1, e2⟩ | ⟨e1, e2⟩
      · rw [if_pos (by rw [← e1, ← e2]; exact h1)]
      · rw [e1] at h1
        exact absurd h1.1 (lt_irrefl 0)
    rcases hstep : (if c.validate_packet.pkt_valid ∨
        ¬c.validate_packet.pkt_validated then
          c.validate_packet.finishPacket
        else (c.validate_packet, .ok ())) with ⟨c2, r2⟩
    cases r2 with
    | ok u =>
      cases u
      apply ih
      · simp [Conn.clear_buffer]
      · simp [Conn.clear_buffer]
      · rw [hflag]
        unfold ipMeasure
        simp [Conn.clear_buffer]
    | error e => rfl
  · simp only [if_neg h1]
    by_cases h2 : 0 < c.validate_packet.expected_size ∧ buf.length ≤
        (c.validate_packet.expected_size + 2 ^ 64 -
          c.validate_packet.currently_read) % 2 ^ 64
    · simp only [if_pos h2]
    · simp only [if_neg h2]
      by_cases h3 : 0 < c.validate_packet.expected_size ∧
          (c.validate_packet.expected_size + 2 ^ 64 -
            c.validate_packet.currently_read) % 2 ^ 64 < buf.length
      · simp only [if_pos h3]
        have hlen1 : 1 ≤ buf.length := by omega
        have hmeas : ∀ c3 : Conn, c3.currently_read = 0 →
            c3.expected_size = 0 →
            ipMeasure c3 (buf.drop (subU32 c.validate_packet.expected_size
              c.validate_packet.currently_read)) < ipMeasure c buf := by
          intro c3 hc3r hc3e
          have htt : 1 ≤ subU32 c.validate_packet.expected_size
              c.validate_packet.currently_read := by
            have hne : c.validate_packet.currently_read ≠
                c.validate_packet.expected_size := fun hq =>
              h1 ⟨h3.1, hq⟩
            unfold subU32
            rcases hcvb with ⟨b1, b2⟩
            omega
          unfold ipMeasure
          rw [if_neg (by rw [hc3e]; simp)]
          simp only [List.length_drop]
          omega
        by_cases h4 : c.validate_packet.pkt_valid ∨
            ¬c.validate_packet.pkt_validated
        · simp only [if_pos h4]
          rcases hstep : (Conn.append_buffer c.validate_packet
              (buf.take (subU32 c.validate_packet.expected_size
                c.validate_packet.currently_read))).finishPacket
            with ⟨c2, r2⟩
          cases r2 with
          | ok u =>
            cases u
            apply ih
            · simp [Conn.clear_buffer]
            · simp [Conn.clear_buffer]
            · exact hmeas _ rfl rfl
          | error e => rfl
        · simp only [if_neg h4]
          apply ih
          · simp [Conn.clear_buffer]
          · simp [Conn.clear_buffer]
          · exact hmeas _ rfl rfl
      · simp only [if_neg h3]
        by_cases h5 : 4 ≤ buf.length
        · simp only [if_pos h5]
          by_cases h6 : 268435456 < beToNat (buf.take 4)
          · simp only [if_pos h6]
            apply ih
            · exact hcvb.1
            · norm_num
            · unfold ipMeasure
              rw [if_neg (by simp)]
              simp only [List.length_drop]
              omega
          · simp only [if_neg h6]
            by_cases h7 : 4 < buf.length
            · simp only [if_pos h7]
              apply ih
              · simp only [Conn.setup_buffer]
                exact hcvb.1
              · simp only [Conn.setup_buffer]
                omega
              · unfold ipMeasure
                simp only [List.length_drop]
                split <;> split <;> omega
            · simp only [if_neg h7]
        · simp only [if_neg h5]

theorem incoming_plaintextF_succ (fuel : Nat) (c : Conn) (buf : Bytes) :
    incoming_plaintextF (fuel + 1) c buf =
      ipStep (incoming_plaintextF fuel) c buf := rfl

theorem incoming_plaintextF_stable (fuel : Nat) :
    ∀ (c : Conn) (buf : Bytes), c.currently_read < 2 ^ 32 →
      c.expected_size < 2 ^ 32 → ipMeasure c buf < fuel →
      incoming_plaintextF fuel c buf =
        incoming_plaintextF (ipMeasure c buf + 1) c buf := by
  induction fuel using Nat.strong_induction_on with
  | _ fuel ihf =>
    intro c buf hr he hm
    obtain ⟨g, rfl⟩ : ∃ g, fuel = g + 1 := ⟨fuel - 1, by omega⟩
    rw [incoming_plaintextF_succ, incoming_plaintextF_succ]
    apply ipStep_congr _ _ c buf hr he
    intro c2 buf2 hr2 he2 hm2
    have step1 := ihf g (by omega) c2 buf2 hr2 he2 (by omega)
    have step2 := ihf (ipMeasure c buf) (by omega) c2 buf2 hr2 he2 hm2
    exact step1.trans step2.symm

/-! ## Claim C4: oversized length prefix resynchronization -/

/-- Claim C4: when the framer reads a `u32` length prefix over 256 MiB
(`268435456`), the frame is discarded — no buffer is set up, no state
survives — and processing continues on the bytes immediately after the
4-byte header exactly as if the stream had started there. -/
theorem claim_C4 (c : Conn) (n : Nat) (rest : Bytes)
    (h0 : c.expected_size = 0) (hb : c.pkt_buffer = none)
    (hr : c.currently_read < 2 ^ 32) (hn : 268435456 < n)
    (hn32 : n < 2 ^ 32) :
    incoming_plaintext c (beBytes 4 n ++ rest) =
      incoming_plaintext c rest := by
  have hv : c.validate_packet = c := validate_packet_of_none c hb
  have hc0 : ({ c with expected_size := 0 } : Conn) = c := by
    cases c
    simp_all
  have hlen : (beBytes 4 n ++ rest).length = (4 + rest.length) := by
    simp
  have htake : (beBytes 4 n ++ rest).take 4 = beBytes 4 n := by
    generalize hbs : beBytes 4 n = bs
    have hlen4 : bs.length = 4 := by rw [← hbs]; exact beBytes_length 4 n
    rw [← hlen4, List.take_left]
  have hdrop : (beBytes 4 n ++ rest).drop 4 = rest := by
    generalize hbs : beBytes 4 n = bs
    have hlen4 : bs.length = 4 := by rw [← hbs]; exact beBytes_length 4 n
    rw [← hlen4, List.drop_left]
  have hbe : beToNat (beBytes 4 n) = n :=
    beToNat_beBytes_of_lt (by norm_num at hn32 ⊢; omega)
  have hstep : incoming_plaintext c (beBytes 4 n ++ rest) =
      incoming_plaintextF (2 * (4 + rest.length)) c rest := by
    unfold incoming_plaintext
    rw [hlen, incoming_plaintextF_succ]
    unfold ipStep
    rw [hv]
    rw [if_neg (by rw [h0]; simp), if_neg (by rw [h0]; simp),
      if_neg (by rw [h0]; simp), if_pos (by rw [hlen]; omega)]
    rw [htake, hbe, if_pos hn, hdrop, hc0]
  rw [hstep]
  have hm : ipMeasure c rest = 2 * rest.length := by
    unfold ipMeasure
    rw [if_neg (by rw [h0]; simp)]
    omega
  unfold incoming_plaintext
  rw [incoming_plaintextF_stable (2 * (4 + rest.length)) c rest hr
      (by rw [h0]; norm_num) (by rw [hm]; omega),
    incoming_plaintextF_stable (2 * rest.length + 1) c rest hr
      (by rw [h0]; norm_num) (by rw [hm]; omega)]

/-! ### Pure view of the framer

For split-invariance (claim C2) the framer is abstracted to its
frame-assembly content: either awaiting a 4-byte length prefix, or
`missing` bytes short of a full frame with `acc` already buffered, plus the
trace of delivered frames.  `absConn` maps connection states to this view;
`ipF_sim` below proves the abstraction exact for Node-type connections. -/

/-- Mode of the pure framer. -/
inductive PureMode where
  | awaiting
  | reading (missing : Nat) (acc : Bytes)
deriving DecidableEq, Repr

/-- Pure framer state: mode plus the delivered-frames trace. -/
structure PureSt where
  mode : PureMode
  delivered : List Bytes
deriving DecidableEq, Repr

/-- States the abstraction actually produces: an open frame always misses at
least one byte. -/
def goodSt (st : PureSt) : Prop :=
  match st.mode with
  | .awaiting => True
  | .reading m _ => 1 ≤ m

/-- The pure framer: headers of 0 or over 256 MiB leave the machine
awaiting; short trailing bytes while awaiting a header are dropped; frames
complete exactly at their declared length.  (The degenerate `reading 0`
state, excluded by `goodSt`, flushes without consuming.) -/
def pureFeed (st : PureSt) (a : Bytes) : PureSt :=
  match st, a with
  | ⟨.awaiting, d⟩, a =>
    if h4 : 4 ≤ a.length then
      let n := beToNat (a.take 4)
      if 268435456 < n ∨ n = 0 then pureFeed ⟨.awaiting, d⟩ (a.drop 4)
      else pureFeed ⟨.reading n [], d⟩ (a.drop 4)
    else ⟨.awaiting, d⟩
  | ⟨.reading 0 acc, d⟩, _ => ⟨.awaiting, d ++ [acc]⟩
  | ⟨.reading (m + 1) acc, d⟩, a =>
    if a.length < m + 1 then ⟨.reading (m + 1 - a.length) (acc ++ a), d⟩
    else if h : a.length = m + 1 then ⟨.awaiting, d ++ [acc ++ a]⟩
    else pureFeed ⟨.awaiting, d ++ [acc ++ a.take (m + 1)]⟩ (a.drop (m + 1))
termination_by a.length
decreasing_by
  · simp only [List.length_drop]; omega
  · simp only [List.length_drop]; omega
  · simp only [List.length_drop]; omega

/-- A feed is clean when the framer is never left holding a partial (1–3
byte) length prefix at the end of a chunk: exactly the situation in which
`incoming_plaintext` silently drops bytes. -/
def cleanPure (st : PureSt) (a : Bytes) : Bool :=
  match st, a with
  | ⟨.awaiting, d⟩, a =>
    if a.length = 0 then true
    else if h4 : 4 ≤ a.length then
      let n := beToNat (a.take 4)
      if 268435456 < n ∨ n = 0 then cleanPure ⟨.awaiting, d⟩ (a.drop 4)
      else cleanPure ⟨.reading n [], d⟩ (a.drop 4)
    else false
  | ⟨.reading 0 _, _⟩, _ => true
  | ⟨.reading (m + 1) acc, d⟩, a =>
    if a.length ≤ m + 1 then true
    else cleanPure ⟨.awaiting, d ++ [acc ++ a.take (m + 1)]⟩ (a.drop (m + 1))
termination_by a.length
decreasing_by
  · simp only [List.length_drop]; omega
  · simp only [List.length_drop]; omega
  · simp only [List.length_drop]; omega

/-- Chunk-by-chunk cleanliness of a whole split. -/
def cleanChunks : PureSt → List Bytes → Bool
  | _, [] => true
  | st, a :: rest => cleanPure st a && cleanChunks (pureFeed st a) rest

/-- Abstraction of a connection's framer fields. -/
def absMode (c : Conn) : PureMode :=
  if c.expected_size = 0 then .awaiting
  else .reading (c.expected_size - c.currently_read) (c.pkt_buffer.getD [])

/-- Abstraction of a connection to the pure framer view. -/
def absConn (c : Conn) : PureSt := ⟨absMode c, c.delivered⟩

/-- Invariant of every reachable Node-type connection state at the entry of
`incoming_plaintext`: the frame bookkeeping is consistent (buffer length
equals `currently_read`, an open frame is never already complete, the
expected size respects the 256 MiB cap) and a validated packet is a valid
one. -/
def NodeInv (c : Conn) : Prop :=
  c.localPeerType = .Node ∧
  c.expected_size ≤ 268435456 ∧
  (c.pkt_validated = true → c.pkt_valid = true) ∧
  ((c.pkt_buffer = none ∧ c.expected_size = 0 ∧ c.currently_read = 0) ∨
   (∃ b, c.pkt_buffer = some b ∧ b.length = c.currently_read ∧
     (c.expected_size = 0 → b = []) ∧
     (0 < c.expected_size → c.currently_read < c.expected_size)))

theorem goodSt_awaiting (d : List Bytes) : goodSt ⟨.awaiting, d⟩ := by
  simp [goodSt]

theorem pureFeed_await_short (d : List Bytes) (a : Bytes)
    (h4 : ¬4 ≤ a.length) : pureFeed ⟨.awaiting, d⟩ a = ⟨.awaiting, d⟩ := by
  conv_lhs => rw [pureFeed]
  rw [dif_neg h4]

theorem pureFeed_await_hdr_drop (d : List Bytes) (a : Bytes)
    (h4 : 4 ≤ a.length)
    (hn : 268435456 < beToNat (a.take 4) ∨ beToNat (a.take 4) = 0) :
    pureFeed ⟨.awaiting, d⟩ a = pureFeed ⟨.awaiting, d⟩ (a.drop 4) := by
  conv_lhs => rw [pureFeed]
  rw [dif_pos h4]
  exact if_pos hn

theorem pureFeed_await_hdr (d : List Bytes) (a : Bytes) (h4 : 4 ≤ a.length)
    (hn : ¬(268435456 < beToNat (a.take 4) ∨ beToNat (a.take 4) = 0)) :
    pureFeed ⟨.awaiting, d⟩ a =
      pureFeed ⟨.reading (beToNat (a.take 4)) [], d⟩ (a.drop 4) := by
  conv_lhs => rw [pureFeed]
  rw [dif_pos h4]
  exact if_neg hn

theorem pureFeed_reading_lt (d : List Bytes) (acc : Bytes) (m : Nat)
    (a : Bytes) (h : a.length < m + 1) :
    pureFeed ⟨.reading (m + 1) acc, d⟩ a =
      ⟨.reading (m + 1 - a.length) (acc ++ a), d⟩ := by
  conv_lhs => rw [pureFeed]
  rw [if_pos h]

theorem pureFeed_reading_eq (d : List Bytes) (acc : Bytes) (m : Nat)
    (a : Bytes) (h : a.length = m + 1) :
    pureFeed ⟨.reading (m + 1) acc, d⟩ a =
      ⟨.awaiting, d ++ [acc ++ a]⟩ := by
  conv_lhs => rw [pureFeed]
  rw [if_neg (by omega), dif_pos h]

theorem pureFeed_reading_gt (d : List Bytes) (acc : Bytes) (m : Nat)
    (a : Bytes) (h : m + 1 < a.length) :
    pureFeed ⟨.reading (m + 1) acc, d⟩ a =
      pureFeed ⟨.awaiting, d ++ [acc ++ a.take (m + 1)]⟩
        (a.drop (m + 1)) := by
  conv_lhs => rw [pureFeed]
  rw [if_neg (by omega), dif_neg (by omega)]

theorem cleanPure_await_short (d : List Bytes) (a : Bytes)
    (ha0 : a.length ≠ 0) (h4 : ¬4 ≤ a.length) :
    cleanPure ⟨.awaiting, d⟩ a = false := by
  conv_lhs => rw [cleanPure]
  rw [if_neg ha0, dif_neg h4]

theorem cleanPure_await_hdr_drop (d : List Bytes) (a : Bytes)
    (ha0 : a.length ≠ 0) (h4 : 4 ≤ a.length)
    (hn : 268435456 < beToNat (a.take 4) ∨ beToNat (a.take 4) = 0) :
    cleanPure ⟨.awaiting, d⟩ a = cleanPure ⟨.awaiting, d⟩ (a.drop 4) := by
  conv_lhs => rw [cleanPure]
  rw [if_neg ha0, dif_pos h4]
  exact if_pos hn

theorem cleanPure_await_hdr (d : List Bytes) (a : Bytes)
    (ha0 : a.length ≠ 0) (h4 : 4 ≤ a.length)
    (hn : ¬(268435456 < beToNat (a.take 4) ∨ beToNat (a.take 4) = 0)) :
    cleanPure ⟨.awaiting, d⟩ a =
      cleanPure ⟨.reading (beToNat (a.take 4)) [], d⟩ (a.drop 4) := by
  conv_lhs => rw [cleanPure]
  rw [if_neg ha0, dif_pos h4]
  exact if_neg hn

theorem cleanPure_reading_gt (d : List Bytes) (acc : Bytes) (m : Nat)
    (a : Bytes) (h : ¬a.length ≤ m + 1) :
    cleanPure ⟨.reading (m + 1) acc, d⟩ a =
      cleanPure ⟨.awaiting, d ++ [acc ++ a.take (m + 1)]⟩
        (a.drop (m + 1)) := by
  conv_lhs => rw [cleanPure]
  rw [if_neg h]

theorem pureFeed_nil (st : PureSt) (hg : goodSt st) : pureFeed st [] = st := by
  obtain ⟨mode, d⟩ := st
  cases mode with
  | awaiting => rw [pureFeed]; simp
  | reading m acc =>
    cases m with
    | zero => exact absurd hg (by simp [goodSt])
    | succ m => rw [pureFeed]; simp

theorem goodSt_pureFeed : ∀ (k : Nat) (st : PureSt) (a : Bytes),
    a.length ≤ k → goodSt st → goodSt (pureFeed st a) := by
  intro k
  induction k with
  | zero =>
    intro st a hlen hg
    have ha : a = [] := List.length_eq_zero.mp (by omega)
    rw [ha, pureFeed_nil st hg]
    exact hg
  | succ k ih =>
    intro st a hlen hg
    obtain ⟨mode, d⟩ := st
    cases mode with
    | awaiting =>
      by_cases h4 : 4 ≤ a.length
      · by_cases hn : 268435456 < beToNat (a.take 4) ∨ beToNat (a.take 4) = 0
        · rw [pureFeed_await_hdr_drop d a h4 hn]
          exact ih _ _ (by simp only [List.length_drop]; omega)
            (goodSt_awaiting d)
        · rw [pureFeed_await_hdr d a h4 hn]
          apply ih _ _ (by simp only [List.length_drop]; omega)
          simp only [goodSt]
          push_neg at hn
          omega
      · rw [pureFeed_await_short d a h4]
        exact goodSt_awaiting d
    | reading m acc =>
      cases m with
      | zero => exact absurd hg (by simp [goodSt])
      | succ m =>
        by_cases hlt : a.length < m + 1
        · rw [pureFeed_reading_lt d acc m a hlt]
          simp only [goodSt]
          omega
        · by_cases heq : a.length = m + 1
          · rw [pureFeed_reading_eq d acc m a heq]
            exact goodSt_awaiting _
          · rw [pureFeed_reading_gt d acc m a (by omega)]
            exact ih _ _ (by simp only [List.length_drop]; omega)
              (goodSt_awaiting _)

theorem pureFeed_append : ∀ (k : Nat) (st : PureSt) (a b : Bytes),
    a.length ≤ k → goodSt st → cleanPure st a = true →
    pureFeed st (a ++ b) = pureFeed (pureFeed st a) b := by
  intro k
  induction k with
  | zero =>
    intro st a b hlen hg _
    have ha : a = [] := List.length_eq_zero.mp (by omega)
    subst ha
    rw [List.nil_append, pureFeed_nil st hg]
  | succ k ih =>
    intro st a b hlen hg hc
    obtain ⟨mode, d⟩ := st
    cases mode with
    | awaiting =>
      by_cases ha0 : a.length = 0
      · have ha : a = [] := List.length_eq_zero.mp ha0
        subst ha
        rw [List.nil_append, pureFeed_nil _ hg]
      · have h4 : 4 ≤ a.length := by
          by_contra h4
          rw [cleanPure_await_short d a ha0 h4] at hc
          exact Bool.false_ne_true hc
        have h4ab : 4 ≤ (a ++ b).length := by
          simp only [List.length_append]; omega
        have ha0ab : (a ++ b).length ≠ 0 := by
          simp only [List.length_append]; omega
        have htake : (a ++ b).take 4 = a.take 4 :=
          List.take_append_of_le_length h4
        have hdrop : (a ++ b).drop 4 = a.drop 4 ++ b :=
          List.drop_append_of_le_length h4
        by_cases hn : 268435456 < beToNat (a.take 4) ∨ beToNat (a.take 4) = 0
        · have hnab : 268435456 < beToNat ((a ++ b).take 4) ∨
              beToNat ((a ++ b).take 4) = 0 := by rw [htake]; exact hn
          rw [cleanPure_await_hdr_drop d a ha0 h4 hn] at hc
          rw [pureFeed_await_hdr_drop d (a ++ b) h4ab hnab, hdrop]
          rw [pureFeed_await_hdr_drop d a h4 hn]
          exact ih _ _ b (by simp only [List.length_drop]; omega)
            (goodSt_awaiting d) hc
        · have hnab : ¬(268435456 < beToNat ((a ++ b).take 4) ∨
              beToNat ((a ++ b).take 4) = 0) := by rw [htake]; exact hn
          rw [cleanPure_await_hdr d a ha0 h4 hn] at hc
          rw [pureFeed_await_hdr d (a ++ b) h4ab hnab, htake, hdrop]
          rw [pureFeed_await_hdr d a h4 hn]
          refine ih _ _ b (by simp only [List.length_drop]; omega) ?_ hc
          simp only [goodSt]
          push_neg at hn
          omega
    | reading m acc =>
      cases m with
      | zero => exact absurd hg (by simp [goodSt])
      | succ m =>
        by_cases hlt : a.length < m + 1
        · rw [pureFeed_reading_lt d acc m a hlt]
          by_cases hlt2 : (a ++ b).length < m + 1
          · rw [pureFeed_reading_lt d acc m (a ++ b) hlt2]
            obtain ⟨q, hq⟩ : ∃ q, m + 1 - a.length = q + 1 :=
              ⟨m - a.length, by omega⟩
            rw [hq, pureFeed_reading_lt _ _ q b (by
              simp only [List.length_append] at hlt2
              omega)]
            simp only [PureSt.mk.injEq, PureMode.reading.injEq,
              List.append_assoc, List.length_append, and_true, true_and]
            omega
          · by_cases heq2 : (a ++ b).length = m + 1
            · rw [pureFeed_reading_eq d acc m (a ++ b) heq2]
              obtain ⟨q, hq⟩ : ∃ q, m + 1 - a.length = q + 1 :=
                ⟨m - a.length, by omega⟩
              rw [hq, pureFeed_reading_eq _ _ q b (by
                simp only [List.length_append] at heq2
                omega)]
              simp [List.append_assoc]
            · have hgt2 : m + 1 < (a ++ b).length := by omega
              rw [pureFeed_reading_gt d acc m (a ++ b) hgt2]
              have ht : (a ++ b).take (m + 1) =
                  a ++ b.take (m + 1 - a.length) := by
                rw [List.take_append_eq_append_take,
                  List.take_of_length_le (by omega)]
              have hd : (a ++ b).drop (m + 1) =
                  b.drop (m + 1 - a.length) := by
                rw [List.drop_append_eq_append_drop,
                  List.drop_eq_nil_of_le (by omega), List.nil_append]
              rw [ht, hd]
              obtain ⟨q, hq⟩ : ∃ q, m + 1 - a.length = q + 1 :=
                ⟨m - a.length, by omega⟩
              rw [hq, pureFeed_reading_gt _ _ q b (by
                simp only [List.length_append] at hgt2
                omega)]
              simp [List.append_assoc]
        · by_cases heq : a.length = m + 1
          · rw [pureFeed_reading_eq d acc m a heq]
            by_cases hb : b = []
            · subst hb
              rw [List.append_nil, pureFeed_reading_eq d acc m a heq,
                pureFeed_nil ⟨.awaiting, d ++ [acc ++ a]⟩
                  (goodSt_awaiting _)]
            · have hblen : 0 < b.length := by
                cases b with
                | nil => exact absurd rfl hb
                | cons x xs => simp
              rw [pureFeed_reading_gt d acc m (a ++ b) (by
                simp only [List.length_append]
                omega)]
              have ht : (a ++ b).take (m + 1) = a := by
                rw [List.take_append_eq_append_take,
                  List.take_of_length_le (by omega),
                  show m + 1 - a.length = 0 by omega, List.take_zero,
                  List.append_nil]
              have hd : (a ++ b).drop (m + 1) = b := by
                rw [List.drop_append_eq_append_drop,
                  List.drop_eq_nil_of_le (by omega), List.nil_append,
                  show m + 1 - a.length = 0 by omega, List.drop_zero]
              rw [ht, hd]
          · have hgt : m + 1 < a.length := by omega
            have hc2 : cleanPure ⟨.awaiting, d ++ [acc ++ a.take (m + 1)]⟩
                (a.drop (m + 1)) = true := by
              rw [cleanPure_reading_gt d acc m a (by omega)] at hc
              exact hc
            rw [pureFeed_reading_gt d acc m a hgt,
              pureFeed_reading_gt d acc m (a ++ b) (by
                simp only [List.length_append]
                omega)]
            rw [List.take_append_of_le_length (by omega),
              List.drop_append_of_le_length (by omega)]
            exact ih _ _ b (by simp only [List.length_drop]; omega)
              (goodSt_awaiting _) hc2

/-- Chunked feeding of the pure framer. -/
def pureFeedList (st : PureSt) (chunks : List Bytes) : PureSt :=
  chunks.foldl pureFeed st

theorem pureFeedList_flatten : ∀ (chunks : List Bytes) (st : PureSt),
    goodSt st → cleanChunks st chunks = true →
    pureFeedList st chunks = pureFeed st chunks.flatten := by
  intro chunks
  induction chunks with
  | nil =>
    intro st hg _
    rw [List.flatten_nil, pureFeed_nil st hg]
    rfl
  | cons a rest ih =>
    intro st hg hc
    simp only [cleanChunks, Bool.and_eq_true] at hc
    obtain ⟨hca, hcrest⟩ := hc
    have hgood : goodSt (pureFeed st a) :=
      goodSt_pureFeed a.length st a le_rfl hg
    have h1 : pureFeedList st (a :: rest) =
        pureFeedList (pureFeed st a) rest := rfl
    rw [h1, ih (pureFeed st a) hgood hcrest, List.flatten_cons,
      pureFeed_append a.length st a rest.flatten le_rfl hg hca]

theorem cleanPure_reading_le (acc : Bytes) (d : List Bytes) (m : Nat)
    (a : Bytes) (h : a.length ≤ m + 1) :
    cleanPure ⟨.reading (m + 1) acc, d⟩ a = true := by
  conv_lhs => rw [cleanPure]
  rw [if_pos h]

theorem validate_packet_node (c : Conn) (hpt : c.localPeerType = .Node) :
    c.validate_packet = c ∨
    c.validate_packet = { c with pkt_valid := true, pkt_validated := true }
    := by
  unfold Conn.validate_packet
  by_cases h : c.pkt_validated = true
  · rw [if_pos h]
    exact Or.inl rfl
  · rw [if_neg h]
    cases hb : c.pkt_buffer with
    | none => exact Or.inl rfl
    | some bytebuf =>
      dsimp only
      by_cases hl : PROTOCOL_MESSAGE_LENGTH ≤ bytebuf.length
      · rw [if_pos hl, hpt]
        exact Or.inr rfl
      · rw [if_neg hl]
        exact Or.inl rfl

theorem validate_packet_validated (c : Conn) (h : c.pkt_validated = true) :
    c.validate_packet = c := by
  unfold Conn.validate_packet
  rw [if_pos h]

theorem finishPacket_node (c : Conn) (hpt : c.localPeerType = .Node) :
    c.finishPacket =
      (Conn.drop_conn_if_unwanted
        { c with messages_received := (c.messages_received + 1) % 2 ^ 64,
                 delivered := c.delivered ++ [c.pkt_buffer.getD []] }
        (.ok ()), .ok ()) := by
  unfold Conn.finishPacket
  dsimp only
  rw [show validate_packet_type c.localPeerType (c.pkt_buffer.getD []) =
    .ok () from by simp [hpt, validate_packet_type]]
  rfl

theorem drop_ok_delivered (c : Conn) :
    (c.drop_conn_if_unwanted (.ok ())).delivered = c.delivered := by
  unfold Conn.drop_conn_if_unwanted
  dsimp only
  split <;> rfl

theorem drop_ok_peer (c : Conn) :
    (c.drop_conn_if_unwanted (.ok ())).localPeerType = c.localPeerType := by
  unfold Conn.drop_conn_if_unwanted
  dsimp only
  split <;> rfl

theorem append_buffer_some (c : Conn) (b new : Bytes)
    (hpb : c.pkt_buffer = some b) :
    c.append_buffer new =
      { c with pkt_buffer := some (b ++ new),
               currently_read := (c.currently_read + new.length) % 2 ^ 32 }
    := by
  unfold Conn.append_buffer
  rw [hpb]

theorem absConn_clear (c : Conn) :
    absConn c.clear_buffer = ⟨.awaiting, c.delivered⟩ := by
  simp [absConn, absMode, Conn.clear_buffer]

theorem NodeInv_clear (c : Conn) (hpt : c.localPeerType = .Node) :
    NodeInv c.clear_buffer := by
  refine ⟨?_, ?_, ?_, Or.inl ⟨rfl, rfl, rfl⟩⟩ <;>
    simp [Conn.clear_buffer, hpt]

theorem ipMeasure_clear (c : Conn) (buf : Bytes) :
    ipMeasure c.clear_buffer buf = 2 * buf.length := by
  simp [ipMeasure, Conn.clear_buffer]

theorem NodeInv_not_complete (c : Conn) (hinv : NodeInv c) :
    ¬(0 < c.expected_size ∧ c.currently_read = c.expected_size) := by
  rintro ⟨hpos, heqr⟩
  rcases hinv.2.2.2 with ⟨_, he0, _⟩ | ⟨b, _, _, _, himp⟩
  · omega
  · have := himp hpos
    omega

theorem NodeInv_goodSt (c : Conn) (hinv : NodeInv c) : goodSt (absConn c) := by
  rcases hinv.2.2.2 with ⟨_, he0, _⟩ | ⟨b, hpb, _, _, himp⟩
  · simp [absConn, absMode, he0, goodSt]
  · by_cases hexp : c.expected_size = 0
    · simp [absConn, absMode, hexp, goodSt]
    · have := himp (by omega)
      simp only [absConn, absMode, if_neg hexp, goodSt]
      omega

theorem ipMeasure_of_ne (c : Conn) (buf : Bytes)
    (h : ¬(0 < c.expected_size ∧ c.currently_read = c.expected_size)) :
    ipMeasure c buf = 2 * buf.length := by
  unfold ipMeasure
  rw [if_neg h]
  omega

/-- The simulation relation between the concrete framer at a given fuel and
the pure framer. -/
def ipSim (fuel : Nat) (c : Conn) (buf : Bytes) : Prop :=
  absConn (incoming_plaintextF fuel c buf).1 = pureFeed (absConn c) buf ∧
  (incoming_plaintextF fuel c buf).2 = .ok () ∧
  NodeInv (incoming_plaintextF fuel c buf).1

theorem NodeInv_setup (c : Conn) (n : Nat) (hpt : c.localPeerType = .Node)
    (hread : c.currently_read = 0) (hcap : n ≤ 268435456) :
    NodeInv (Conn.setup_buffer { c with expected_size := n }) := by
  refine ⟨hpt, hcap, ?_, Or.inr ⟨[], rfl, ?_, fun _ => rfl, ?_⟩⟩
  · intro h
    simp [Conn.setup_buffer] at h
  · show 0 = c.currently_read
    omega
  · show 0 < n → c.currently_read < n
    omega

theorem absConn_setup (c : Conn) (n : Nat) (hread : c.currently_read = 0) :
    absConn (Conn.setup_buffer { c with expected_size := n }) =
      ⟨if n = 0 then .awaiting else .reading n [], c.delivered⟩ := by
  by_cases hn : n = 0
  · simp [absConn, absMode, Conn.setup_buffer, hn]
  · simp [absConn, absMode, Conn.setup_buffer, hn, hread]

theorem ipMeasure_setup (c : Conn) (n : Nat) (hread : c.currently_read = 0)
    (buf : Bytes) :
    ipMeasure (Conn.setup_buffer { c with expected_size := n }) buf =
      2 * buf.length := by
  unfold ipMeasure
  rw [if_neg]
  · omega
  · show ¬(0 < n ∧ c.currently_read = n)
    omega

theorem absConn_reading (c : Conn) (b : Bytes) (hexp : ¬c.expected_size = 0)
    (hpb : c.pkt_buffer = some b) :
    absConn c =
      ⟨.reading (c.expected_size - c.currently_read) b, c.delivered⟩ := by
  simp [absConn, absMode, hexp, hpb]

/-- One step of the simulation: a connection already fixed by
`validate_packet` satisfying the node invariant executes `ipStep` exactly as
the pure framer consumes the chunk. -/
theorem ipF_sim_core (g : Nat)
    (ih : ∀ c2 buf2, NodeInv c2 → ipMeasure c2 buf2 < g → ipSim g c2 buf2)
    (c : Conn) (buf : Bytes) (hinv : NodeInv c)
    (hfix : c.validate_packet = c) (hm : ipMeasure c buf < g + 1) :
    ipSim (g + 1) c buf := by
  obtain ⟨hpt, hcap, hvv, hbufinv⟩ := hinv
  have hinv' : NodeInv c := ⟨hpt, hcap, hvv, hbufinv⟩
  have hflagP : (c.pkt_valid = true ∨ ¬c.pkt_validated = true) := by
    by_cases hb : c.pkt_validated = true
    · exact Or.inl (hvv hb)
    · exact Or.inr hb
  have h1 : ¬(0 < c.expected_size ∧ c.currently_read = c.expected_size) :=
    NodeInv_not_complete c hinv'
  have hm2 : 2 * buf.length ≤ g := by
    rw [ipMeasure_of_ne c buf h1] at hm
    omega
  unfold ipSim
  rw [incoming_plaintextF_succ]
  unfold ipStep
  rw [hfix, if_neg h1]
  by_cases hexp : c.expected_size = 0
  · -- A: awaiting a length header
    have hread : c.currently_read = 0 := by
      rcases hbufinv with ⟨_, _, hr0⟩ | ⟨b, _, hbl, hb0, _⟩
      · exact hr0
      · rw [← hbl, hb0 hexp]
        rfl
    have habsc : absConn c = ⟨.awaiting, c.delivered⟩ := by
      simp [absConn, absMode, hexp]
    have hc2 : ¬(0 < c.expected_size ∧ buf.length ≤
        (c.expected_size + 2 ^ 64 - c.currently_read) % 2 ^ 64) := by
      rw [hexp]
      simp
    have hc3 : ¬(0 < c.expected_size ∧
        (c.expected_size + 2 ^ 64 - c.currently_read) % 2 ^ 64 <
          buf.length) := by
      rw [hexp]
      simp
    rw [if_neg hc2, if_neg hc3]
    by_cases h4 : 4 ≤ buf.length
    · rw [if_pos h4]
      by_cases h6 : 268435456 < beToNat (buf.take 4)
      · rw [if_pos h6]
        have hceq : ({ c with expected_size := 0 } : Conn) = c := by
          rw [← hexp]
        rw [hceq]
        obtain ⟨ha, hok, hni⟩ := ih c (buf.drop 4) hinv'
          (by rw [ipMeasure_of_ne c _ h1]
              simp only [List.length_drop]
              omega)
        refine ⟨?_, hok, hni⟩
        rw [ha, habsc]
        exact (pureFeed_await_hdr_drop c.delivered buf h4 (Or.inl h6)).symm
      · rw [if_neg h6]
        by_cases h7 : 4 < buf.length
        · rw [if_pos h7]
          obtain ⟨ha, hok, hni⟩ := ih
            (Conn.setup_buffer { c with
              expected_size := beToNat (buf.take 4) }) (buf.drop 4)
            (NodeInv_setup c _ hpt hread (by omega))
            (by rw [ipMeasure_setup c _ hread]
                simp only [List.length_drop]
                omega)
          refine ⟨?_, hok, hni⟩
          rw [ha, absConn_setup c _ hread, habsc]
          by_cases hn0 : beToNat (buf.take 4) = 0
          · rw [if_pos hn0,
              ← pureFeed_await_hdr_drop c.delivered buf h4 (Or.inr hn0)]
          · rw [if_neg hn0]
            exact (pureFeed_await_hdr c.delivered buf h4
              (by rw [not_or]; exact ⟨h6, hn0⟩)).symm
        · rw [if_neg h7]
          dsimp only
          refine ⟨?_, rfl, NodeInv_setup c _ hpt hread (by omega)⟩
          rw [absConn_setup c _ hread, habsc]
          have hdrop4 : buf.drop 4 = [] :=
            List.drop_eq_nil_of_le (by omega)
          by_cases hn0 : beToNat (buf.take 4) = 0
          · rw [if_pos hn0,
              pureFeed_await_hdr_drop c.delivered buf h4 (Or.inr hn0),
              hdrop4,
              pureFeed_nil ⟨.awaiting, c.delivered⟩ (goodSt_awaiting _)]
          · rw [if_neg hn0,
              pureFeed_await_hdr c.delivered buf h4
                (by rw [not_or]; exact ⟨h6, hn0⟩),
              hdrop4,
              pureFeed_nil ⟨.reading (beToNat (buf.take 4)) [], c.delivered⟩
                (by simp only [goodSt]; omega)]
    · rw [if_neg h4]
      dsimp only
      refine ⟨?_, rfl, hinv'⟩
      rw [habsc, pureFeed_await_short c.delivered buf h4]
  · -- B: an open frame
    rcases hbufinv with ⟨_, he0, _⟩ | ⟨b, hpb, hbl, _, himp⟩
    · exact absurd he0 hexp
    · have hpos : 0 < c.expected_size := by omega
      have hrlt : c.currently_read < c.expected_size := himp hpos
      have h64e : (2 : Nat) ^ 64 = 18446744073709551616 := by norm_num
      have h32e : (2 : Nat) ^ 32 = 4294967296 := by norm_num
      have hmod : (c.expected_size + 2 ^ 64 - c.currently_read) % 2 ^ 64 =
          c.expected_size - c.currently_read := by
        rw [h64e]
        omega
      obtain ⟨m, hmm⟩ : ∃ m, c.expected_size - c.currently_read = m + 1 :=
        ⟨c.expected_size - c.currently_read - 1, by omega⟩
      by_cases hle : buf.length ≤ c.expected_size - c.currently_read
      · -- the chunk fits in the open frame
        have hcc2 : 0 < c.expected_size ∧ buf.length ≤
            (c.expected_size + 2 ^ 64 - c.currently_read) % 2 ^ 64 :=
          ⟨hpos, by rw [hmod]; exact hle⟩
        rw [if_pos hcc2, if_pos hflagP]
        have hsm : (c.currently_read + buf.length) % 2 ^ 32 =
            c.currently_read + buf.length :=
          Nat.mod_eq_of_lt (by rw [h32e]; omega)
        have happfields : (c.append_buffer buf).localPeerType = .Node ∧
            (c.append_buffer buf).delivered = c.delivered ∧
            (c.append_buffer buf).pkt_buffer = some (b ++ buf) ∧
            (c.append_buffer buf).currently_read =
              c.currently_read + buf.length ∧
            (c.append_buffer buf).expected_size = c.expected_size ∧
            (c.append_buffer buf).pkt_valid = c.pkt_valid ∧
            (c.append_buffer buf).pkt_validated = c.pkt_validated := by
          rw [append_buffer_some c b buf hpb]
          exact ⟨hpt, rfl, rfl, hsm, rfl, rfl, rfl⟩
        by_cases heq : buf.length = c.expected_size - c.currently_read
        · -- the chunk completes the frame exactly
          have hcond : (c.append_buffer buf).expected_size =
              (c.append_buffer buf).currently_read := by
            rw [happfields.2.2.2.2.1, happfields.2.2.2.1]
            omega
          rw [if_pos hcond]
          have hflag3 : ((c.append_buffer buf).pkt_valid = true ∨
              ¬(c.append_buffer buf).pkt_validated = true) := by
            rw [happfields.2.2.2.2.2.1, happfields.2.2.2.2.2.2]
            exact hflagP
          rw [if_pos hflag3]
          have hfinA : ((c.append_buffer buf).finishPacket).2 = .ok () := by
            rw [finishPacket_node _ happfields.1]
          have hdelA : ((c.append_buffer buf).finishPacket).1.delivered =
              c.delivered ++ [b ++ buf] := by
            rw [finishPacket_node _ happfields.1]
            dsimp only
            rw [drop_ok_delivered]
            show (c.append_buffer buf).delivered ++
              [(c.append_buffer buf).pkt_buffer.getD []] = _
            rw [happfields.2.1, happfields.2.2.1]
            rfl
          have hpeerA :
              ((c.append_buffer buf).finishPacket).1.localPeerType =
                .Node := by
            rw [finishPacket_node _ happfields.1]
            dsimp only
            rw [drop_ok_peer]
            exact happfields.1
          have hsplitA : (c.append_buffer buf).finishPacket =
              (((c.append_buffer buf).finishPacket).1, .ok ()) := by
            rw [← hfinA]
          rw [hsplitA]
          dsimp only
          refine ⟨?_, rfl, NodeInv_clear _ hpeerA⟩
          rw [absConn_clear, hdelA, absConn_reading c b hexp hpb, hmm]
          exact (pureFeed_reading_eq c.delivered b m buf (by omega)).symm
        · -- the chunk leaves the frame open
          have hcond : ¬((c.append_buffer buf).expected_size =
              (c.append_buffer buf).currently_read) := by
            rw [happfields.2.2.2.2.1, happfields.2.2.2.1]
            omega
          rw [if_neg hcond]
          dsimp only
          refine ⟨?_, rfl, ?_⟩
          · have habs3 : absConn (c.append_buffer buf) =
                ⟨.reading (c.expected_size -
                    (c.currently_read + buf.length)) (b ++ buf),
                  c.delivered⟩ := by
              rw [append_buffer_some c b buf hpb]
              simp [absConn, absMode, hexp, hsm]
              omega
            rw [habs3, absConn_reading c b hexp hpb, hmm,
              pureFeed_reading_lt c.delivered b m buf (by omega)]
            have harith : c.expected_size -
                (c.currently_read + buf.length) = m + 1 - buf.length := by
              omega
            rw [harith]
          · refine ⟨happfields.1, ?_, ?_,
              Or.inr ⟨b ++ buf, happfields.2.2.1, ?_, ?_, ?_⟩⟩
            · rw [happfields.2.2.2.2.1]
              exact hcap
            · rw [happfields.2.2.2.2.2.2, happfields.2.2.2.2.2.1]
              exact hvv
            · rw [happfields.2.2.2.1, List.length_append, hbl]
            · rw [happfields.2.2.2.2.1]
              intro h
              exact absurd h hexp
            · rw [happfields.2.2.2.2.1, happfields.2.2.2.1]
              intro _
              omega
      · -- the chunk crosses the frame boundary
        have hnc2 : ¬(0 < c.expected_size ∧ buf.length ≤
            (c.expected_size + 2 ^ 64 - c.currently_read) % 2 ^ 64) := by
          rintro ⟨_, hle2⟩
          rw [hmod] at hle2
          exact hle hle2
        have hcc3 : 0 < c.expected_size ∧
            (c.expected_size + 2 ^ 64 - c.currently_read) % 2 ^ 64 <
              buf.length := ⟨hpos, by rw [hmod]; omega⟩
        rw [if_neg hnc2, if_pos hcc3]
        have htt : subU32 c.expected_size c.currently_read =
            c.expected_size - c.currently_read := by
          unfold subU32
          rw [h32e]
          omega
        rw [htt, if_pos hflagP]
        have hptA : (c.append_buffer
            (buf.take (c.expected_size - c.currently_read))).localPeerType =
            .Node := by
          rw [append_buffer_some c b _ hpb]
          exact hpt
        have hfinA : ((c.append_buffer
            (buf.take (c.expected_size -
              c.currently_read))).finishPacket).2 = .ok () := by
          rw [finishPacket_node _ hptA]
        have hdelA : ((c.append_buffer
            (buf.take (c.expected_size -
              c.currently_read))).finishPacket).1.delivered =
            c.delivered ++
              [b ++ buf.take (c.expected_size - c.currently_read)] := by
          rw [finishPacket_node _ hptA]
          dsimp only
          rw [drop_ok_delivered]
          show (c.append_buffer _).delivered ++
            [(c.append_buffer _).pkt_buffer.getD []] = _
          rw [append_buffer_some c b _ hpb]
          rfl
        have hpeerA : ((c.append_buffer
            (buf.take (c.expected_size -
              c.currently_read))).finishPacket).1.localPeerType = .Node := by
          rw [finishPacket_node _ hptA]
          dsimp only
          rw [drop_ok_peer]
          exact hptA
        have hsplitA : (c.append_buffer
            (buf.take (c.expected_size - c.currently_read))).finishPacket =
            (((c.append_buffer (buf.take (c.expected_size -
              c.currently_read))).finishPacket).1, .ok ()) := by
          rw [← hfinA]
        dsimp only
        rw [hsplitA]
        dsimp only
        obtain ⟨ha, hok, hni⟩ := ih
          ((c.append_buffer (buf.take (c.expected_size -
            c.currently_read))).finishPacket).1.clear_buffer
          (buf.drop (c.expected_size - c.currently_read))
          (NodeInv_clear _ hpeerA)
          (by rw [ipMeasure_clear]
              simp only [List.length_drop]
              omega)
        refine ⟨?_, hok, hni⟩
        rw [ha, absConn_clear, hdelA, absConn_reading c b hexp hpb, hmm]
        exact (pureFeed_reading_gt c.delivered b m buf (by omega)).symm

/-- The framer simulation at every sufficient fuel: on Node-type
connections satisfying the invariant, `incoming_plaintextF` never raises,
preserves the invariant and tracks the pure framer exactly. -/
theorem ipF_sim : ∀ (fuel : Nat) (c : Conn) (buf : Bytes),
    NodeInv c → ipMeasure c buf < fuel → ipSim fuel c buf := by
  intro fuel
  induction fuel using Nat.strong_induction_on with
  | _ fuel ihf =>
    intro c buf hinv hm
    obtain ⟨g, rfl⟩ : ∃ g, fuel = g + 1 := ⟨fuel - 1, by omega⟩
    have ihg : ∀ c2 buf2, NodeInv c2 → ipMeasure c2 buf2 < g →
        ipSim g c2 buf2 :=
      fun c2 buf2 h1 h2 => ihf g (by omega) c2 buf2 h1 h2
    rcases validate_packet_node c hinv.1 with hvp | hvp
    · exact ipF_sim_core g ihg c buf hinv hvp hm
    · have hfix2 : Conn.validate_packet
          { c with pkt_valid := true, pkt_validated := true } =
          { c with pkt_valid := true, pkt_validated := true } :=
        validate_packet_validated _ rfl
      have hinv2 : NodeInv
          { c with pkt_valid := true, pkt_validated := true } :=
        ⟨hinv.1, hinv.2.1, fun _ => rfl, hinv.2.2.2⟩
      have hshift : incoming_plaintextF (g + 1) c buf =
          incoming_plaintextF (g + 1)
            { c with pkt_valid := true, pkt_validated := true } buf := by
        rw [incoming_plaintextF_succ, incoming_plaintextF_succ]
        unfold ipStep
        rw [hvp, hfix2]
      have hsim := ipF_sim_core g ihg
        { c with pkt_valid := true, pkt_validated := true } buf hinv2
        hfix2 hm
      unfold ipSim at hsim ⊢
      rw [hshift]
      exact hsim

/-- `incoming_plaintext` on a Node connection satisfying the invariant:
no error, invariant preserved, and the framer state and delivered trace
abstract to one pure `pureFeed` step on the chunk. -/
theorem incoming_plaintext_sim (c : Conn) (buf : Bytes) (hinv : NodeInv c) :
    absConn (incoming_plaintext c buf).1 = pureFeed (absConn c) buf ∧
    (incoming_plaintext c buf).2 = .ok () ∧
    NodeInv (incoming_plaintext c buf).1 := by
  have hm : ipMeasure c buf < 2 * buf.length + 1 := by
    rw [ipMeasure_of_ne c buf (NodeInv_not_complete c hinv)]
    omega
  exact ipF_sim (2 * buf.length + 1) c buf hinv hm

/-- Feeding a sequence of read chunks to `incoming_plaintext` one call at a
time, as the poll loop does. -/
def feedChunks (c : Conn) (chunks : List Bytes) : Conn :=
  chunks.foldl (fun c2 a => (incoming_plaintext c2 a).1) c

theorem feedChunks_abs : ∀ (chunks : List Bytes) (c : Conn), NodeInv c →
    absConn (feedChunks c chunks) = pureFeedList (absConn c) chunks ∧
    NodeInv (feedChunks c chunks) := by
  intro chunks
  induction chunks with
  | nil => exact fun c _ => ⟨rfl, by assumption⟩
  | cons a rest ih =>
    intro c hinv
    obtain ⟨ha, _, hni⟩ := incoming_plaintext_sim c a hinv
    obtain ⟨hr1, hr2⟩ := ih (incoming_plaintext c a).1 hni
    have h1 : feedChunks c (a :: rest) =
        feedChunks (incoming_plaintext c a).1 rest := rfl
    have h2 : pureFeedList (absConn c) (a :: rest) =
        pureFeedList (pureFeed (absConn c) a) rest := rfl
    rw [h1, h2, ← ha]
    exact ⟨hr1, hr2⟩

/-- Claim C2 (corrected): on a Node-type connection satisfying the framer
invariant, for every split of a byte stream into chunks that never strands
a partial 1–3 byte length prefix at a chunk end (`cleanChunks`), feeding
the chunks one `incoming_plaintext` call at a time hands the same sequence
of complete frames to packet processing as feeding the concatenated
stream in one call.  As stated in the spec the property is false: a chunk
boundary inside a 4-byte length prefix silently drops the stranded header
bytes (`claim_C2_counterexample`). -/
theorem claim_C2 (c : Conn) (chunks : List Bytes) (hinv : NodeInv c)
    (hclean : cleanChunks (absConn c) chunks = true) :
    (feedChunks c chunks).delivered =
      (incoming_plaintext c chunks.flatten).1.delivered := by
  have h1 := (feedChunks_abs chunks c hinv).1
  have h2 := (incoming_plaintext_sim c chunks.flatten hinv).1
  have h3 := pureFeedList_flatten chunks (absConn c)
    (NodeInv_goodSt c hinv) hclean
  calc (feedChunks c chunks).delivered
      = (absConn (feedChunks c chunks)).delivered := rfl
    _ = (pureFeedList (absConn c) chunks).delivered := by rw [h1]
    _ = (pureFeed (absConn c) chunks.flatten).delivered := by rw [h3]
    _ = (absConn (incoming_plaintext c chunks.flatten).1).delivered := by
        rw [h2]
    _ = (incoming_plaintext c chunks.flatten).1.delivered := rfl

/-- Counterexample to C2 as stated: the same 5-byte stream — one frame of
length 1 — split as `[[0,0],[0,1,42]]` (the length prefix cut in half)
delivers nothing, while the unsplit stream delivers the frame `[42]`:
the framer drops the 1–3 stranded header bytes at each chunk end. -/
theorem claim_C2_counterexample :
    ([[0, 0], [0, 1, 42]] : List Bytes).flatten =
      ([[0, 0, 0, 1, 42]] : List Bytes).flatten ∧
    (feedChunks (freshConn .Node) [[0, 0], [0, 1, 42]]).delivered = [] ∧
    (feedChunks (freshConn .Node) [[0, 0, 0, 1, 42]]).delivered =
      [[42]] := by
  refine ⟨rfl, ?_, ?_⟩ <;> decide

/-- Witness for C2 at a concrete clean split: a frame of length 2 cut
after its first payload byte is delivered identically to the unsplit
stream. -/
theorem claim_C2_witness :
    NodeInv (freshConn .Node) ∧
    cleanChunks (absConn (freshConn .Node)) [[0, 0, 0, 2, 7], [8]] = true ∧
    (feedChunks (freshConn .Node) [[0, 0, 0, 2, 7], [8]]).delivered =
      (incoming_plaintext (freshConn .Node)
        ([[0, 0, 0, 2, 7], [8]] : List Bytes).flatten).1.delivered := by
  have hinv : NodeInv (freshConn .Node) :=
    ⟨rfl, Nat.zero_le _, fun h => absurd h (by decide),
      Or.inl ⟨rfl, rfl, rfl⟩⟩
  have e0 : ∀ (st : PureSt) (a : Bytes) (rest : List Bytes),
      cleanChunks st (a :: rest) =
        (cleanPure st a && cleanChunks (pureFeed st a) rest) :=
    fun _ _ _ => rfl
  have e1 : ∀ st : PureSt, cleanChunks st [] = true := fun _ => rfl
  have c1 : cleanPure ⟨.awaiting, ([] : List Bytes)⟩ [0, 0, 0, 2, 7] =
      true := by
    rw [cleanPure_await_hdr [] [0, 0, 0, 2, 7] (by decide) (by decide)
      (by decide)]
    rw [show beToNat (List.take 4 ([0, 0, 0, 2, 7] : Bytes)) = 1 + 1 from
      by decide, show List.drop 4 ([0, 0, 0, 2, 7] : Bytes) = [7] from rfl]
    exact cleanPure_reading_le [] [] 1 [7] (by decide)
  have p1 : pureFeed ⟨.awaiting, ([] : List Bytes)⟩ [0, 0, 0, 2, 7] =
      ⟨.reading 1 [7], []⟩ := by
    rw [pureFeed_await_hdr [] [0, 0, 0, 2, 7] (by decide) (by decide)]
    rw [show beToNat (List.take 4 ([0, 0, 0, 2, 7] : Bytes)) = 1 + 1 from
      by decide, show List.drop 4 ([0, 0, 0, 2, 7] : Bytes) = [7] from rfl]
    rw [pureFeed_reading_lt [] [] 1 [7] (by decide)]
    rfl
  have c2 : cleanPure ⟨.reading 1 [7], ([] : List Bytes)⟩ [8] = true :=
    cleanPure_reading_le [7] [] 0 [8] (by decide)
  have hclean : cleanChunks (absConn (freshConn .Node))
      [[0, 0, 0, 2, 7], [8]] = true := by
    show cleanChunks ⟨.awaiting, []⟩ [[0, 0, 0, 2, 7], [8]] = true
    rw [e0, c1, p1, e0, c2, e1]
    rfl
  exact ⟨hinv, hclean,
    claim_C2 (freshConn .Node) [[0, 0, 0, 2, 7], [8]] hinv hclean⟩

/-- Witness for C4: a prefix declaring `268435457` bytes followed by a
single byte. -/
theorem claim_C4_witness :
    incoming_plaintext (freshConn .Node) (beBytes 4 268435457 ++ [5]) =
      incoming_plaintext (freshConn .Node) [5] :=
  claim_C4 (freshConn .Node) 268435457 [5] rfl rfl (by decide) (by decide)
    (by decide)

/-- Counterexample for C3 as stated: a Bootstrapper that receives a
complete `DirectMessage` frame in a single `incoming_plaintext` call does
*not* abort the connection — the frame is handed to packet processing and
no error (in particular no `UnwantedMessageError`) is raised; the gate that
does fire (`validate_packet_type`) raises `PeerError`. -/
theorem claim_C3_counterexample :
    (incoming_plaintext (freshConn .Bootstrapper)
        (beBytes 4 19 ++ dmFrame)).1.closing = false ∧
    (incoming_plaintext (freshConn .Bootstrapper)
        (beBytes 4 19 ++ dmFrame)).1.delivered = [dmFrame] ∧
    (incoming_plaintext (freshConn .Bootstrapper)
        (beBytes 4 19 ++ dmFrame)).2 = .ok () ∧
    validate_packet_type .Bootstrapper [49, 50] =
      .error (.peerError "Wrong data type message received for node") := by
  refine ⟨?_, ?_, ?_, ?_⟩ <;> decide

/-! ## Claims C5 and C8: the consensus bridge and the catch-up handshake
hook in `cli.rs`

The 2-byte consensus sub-type tag constants (`consensus::PACKET_TYPE_*`)
live in the consensus crate outside this tree.  Modelled from the spec:
the §4.7 table lists the closed set in order, so the tags are numbered in
table order; every property below depends only on the tags being the
closed set dispatched on, not on their numeric values. -/

/-- `PAYLOAD_TYPE_LENGTH` (cli.rs line 56). -/
def PAYLOAD_TYPE_LENGTH : Nat := 2

/-- Modelled from the spec: consensus sub-type tag `CONSENSUS_BLOCK`. -/
def PACKET_TYPE_CONSENSUS_BLOCK : Nat := 0

/-- Modelled from the spec: tag `CONSENSUS_TRANSACTION`. -/
def PACKET_TYPE_CONSENSUS_TRANSACTION : Nat := 1

/-- Modelled from the spec: tag `CONSENSUS_FINALIZATION`. -/
def PACKET_TYPE_CONSENSUS_FINALIZATION : Nat := 2

/-- Modelled from the spec: tag `CONSENSUS_FINALIZATION_RECORD`. -/
def PACKET_TYPE_CONSENSUS_FINALIZATION_RECORD : Nat := 3

/-- Modelled from the spec: tag `CATCHUP_REQUEST_BLOCK_BY_HASH`. -/
def PACKET_TYPE_CONSENSUS_CATCHUP_REQUEST_BLOCK_BY_HASH : Nat := 4

/-- Modelled from the spec: tag `CATCHUP_REQUEST_FINREC_BY_HASH`. -/
def PACKET_TYPE_CONSENSUS_CATCHUP_REQUEST_FINALIZATION_RECORD_BY_HASH :
    Nat := 5

/-- Modelled from the spec: tag `CATCHUP_REQUEST_FINREC_BY_INDEX`. -/
def PACKET_TYPE_CONSENSUS_CATCHUP_REQUEST_FINALIZATION_RECORD_BY_INDEX :
    Nat := 6

/-- Modelled from the spec: tag `CATCHUP_REQUEST_FINALIZATION_BY_POINT`. -/
def PACKET_TYPE_CONSENSUS_CATCHUP_REQUEST_FINALIZATION_BY_POINT : Nat := 7

/-- The closed set of known consensus sub-type tags, in the source's match
order (cli.rs 416–425). -/
def knownConsensusTags : List Nat :=
  [PACKET_TYPE_CONSENSUS_BLOCK,
   PACKET_TYPE_CONSENSUS_TRANSACTION,
   PACKET_TYPE_CONSENSUS_FINALIZATION,
   PACKET_TYPE_CONSENSUS_FINALIZATION_RECORD,
   PACKET_TYPE_CONSENSUS_CATCHUP_REQUEST_BLOCK_BY_HASH,
   PACKET_TYPE_CONSENSUS_CATCHUP_REQUEST_FINALIZATION_RECORD_BY_HASH,
   PACKET_TYPE_CONSENSUS_CATCHUP_REQUEST_FINALIZATION_RECORD_BY_INDEX,
   PACKET_TYPE_CONSENSUS_CATCHUP_REQUEST_FINALIZATION_BY_POINT]

/-- Observable outcome of `send_msg_to_baker` (cli.rs 398–433).  The eight
`send_*_to_baker` handlers deserialize the content and feed the consensus
engine; their invocation with the matched tag and the sliced content is the
hand-off observable recorded here. -/
inductive BakerDispatch where
  /-- `baker_ins` was `None`: the message is ignored with `Ok(())`. -/
  | noBaker : BakerDispatch
  /-- a known tag: the corresponding `send_*_to_baker` handler is invoked
  on the content. -/
  | handled (tag : Nat) (content : Bytes) : BakerDispatch
  /-- the fall-through arm: `error!("Couldn't read bytes properly for
  type")` and `Ok(())` — logged and dropped. -/
  | droppedUnknown : BakerDispatch
deriving DecidableEq, Repr

/-- `send_msg_to_baker` (cli.rs 398–433) on a cursor positioned at the
start of the packet payload: ensure at least the 2-byte tag
(`ensure!`, an `Err` return modelled as `.truncated`), read the big-endian
`u16` sub-type, slice the content after the tag, and dispatch on the
closed tag set; the `_` arm only logs and returns `Ok(())`. -/
def send_msg_to_baker (baker_present : Bool) (msg : Bytes) :
    Res BakerDispatch :=
  if baker_present then
    if PAYLOAD_TYPE_LENGTH ≤ msg.length then
      let consensus_type := beToNat (msg.take PAYLOAD_TYPE_LENGTH)
      let content := msg.drop PAYLOAD_TYPE_LENGTH
      if consensus_type = PACKET_TYPE_CONSENSUS_BLOCK ∨
         consensus_type = PACKET_TYPE_CONSENSUS_TRANSACTION ∨
         consensus_type = PACKET_TYPE_CONSENSUS_FINALIZATION ∨
         consensus_type = PACKET_TYPE_CONSENSUS_FINALIZATION_RECORD ∨
         consensus_type =
           PACKET_TYPE_CONSENSUS_CATCHUP_REQUEST_BLOCK_BY_HASH ∨
         consensus_type =
           PACKET_TYPE_CONSENSUS_CATCHUP_REQUEST_FINALIZATION_RECORD_BY_HASH
           ∨
         consensus_type =
           PACKET_TYPE_CONSENSUS_CATCHUP_REQUEST_FINALIZATION_RECORD_BY_INDEX
           ∨
         consensus_type =
           PACKET_TYPE_CONSENSUS_CATCHUP_REQUEST_FINALIZATION_BY_POINT then
        .ok (.handled consensus_type content)
      else
        .ok .droppedUnknown
    else .err .truncated
  else .ok .noBaker

/-- Claim C8: a `DirectMessage`/`BroadcastedMessage` payload whose 2-byte
consensus sub-type tag is outside the closed set of known tags is logged
and dropped — `send_msg_to_baker` takes the fall-through arm and returns
success, so the caller's error branch (which itself only logs, cli.rs
536–545) is not taken and the peer connection is never closed. -/
theorem claim_C8 (msg : Bytes)
    (hlen : PAYLOAD_TYPE_LENGTH ≤ msg.length)
    (htag : beToNat (msg.take PAYLOAD_TYPE_LENGTH) ∉ knownConsensusTags) :
    send_msg_to_baker true msg = .ok .droppedUnknown := by
  simp only [knownConsensusTags, List.mem_cons, List.not_mem_nil,
    or_false, not_or] at htag
  obtain ⟨h0, h1, h2, h3, h4, h5, h6, h7⟩ := htag
  unfold send_msg_to_baker
  rw [if_pos rfl, if_pos hlen, if_neg]
  rintro (h | h | h | h | h | h | h | h) <;> simp_all

/-- Witness for C8: a message with tag `0xFFFF` and one content byte is
dropped with success. -/
theorem claim_C8_witness :
    PAYLOAD_TYPE_LENGTH ≤ ([255, 255, 9] : Bytes).length ∧
    beToNat (([255, 255, 9] : Bytes).take PAYLOAD_TYPE_LENGTH) ∉
      knownConsensusTags ∧
    send_msg_to_baker true [255, 255, 9] = .ok .droppedUnknown :=
  ⟨by decide, by decide, claim_C8 [255, 255, 9] (by decide) (by decide)⟩

/-- Modelled from the spec: the `NetworkResponse` message ontology — the
handshake response carries the remote peer (its id), the set of networks it
advertises, and a zero-knowledge blob; the other response kinds carry no
data relevant to the catch-up hook. -/
inductive NetworkResponse where
  | Handshake (remote_peer : Nat) (nets : List Nat) (zk : Bytes) :
      NetworkResponse
  | Pong : NetworkResponse
  | PeerList (peers : List Nat) : NetworkResponse
deriving DecidableEq, Repr

/-- A call to `P2PNode::send_message` as issued by the handshake-response
callback: optional target peer id, network id, payload, broadcast flag. -/
structure OutMessage where
  target : Option Nat
  net : Nat
  bytes : Bytes
  broadcast : Bool
deriving DecidableEq, Repr

/-- The handshake-response callback registered in `cli.rs` 880–917: on a
`Handshake` response, take the first advertised network (`nets.iter()
.next()`) — logging and sending nothing when there is none — ask the
consensus engine for its finalization point (silently sending nothing on
failure), and send the point prefixed with the 2-byte
`CATCHUP_REQUEST_FINALIZATION_BY_POINT` tag direct (non-broadcast) to the
handshaken peer on that network. -/
def handshake_response_callback (getFinPoint : Except Unit Bytes)
    (msg : NetworkResponse) : List OutMessage :=
  match msg with
  | .Handshake remote_peer nets _ =>
    match nets with
    | [] => []
    | net :: _ =>
      match getFinPoint with
      | .error _ => []
      | .ok bytes =>
          [⟨some remote_peer, net,
            beBytes 2
              PACKET_TYPE_CONSENSUS_CATCHUP_REQUEST_FINALIZATION_BY_POINT ++
              bytes, false⟩]
  | _ => []

/-- Claim C5 (corrected): when a `Handshake` response completion event
arrives on a node running a consensus engine, *and* the peer advertised at
least one network, *and* the engine yields its finalization point, the
point is sent prefixed with the 2-byte
`CATCHUP_REQUEST_FINALIZATION_BY_POINT` tag as a direct (non-broadcast)
message to the handshaken peer on the peer's first advertised network.  As
stated the claim is false: a handshake response advertising no networks
sends nothing even though the engine's finalization point is available
(`claim_C5_counterexample`). -/
theorem claim_C5 (remote_peer net : Nat) (rest : List Nat) (zk fin : Bytes) :
    handshake_response_callback (.ok fin)
      (.Handshake remote_peer (net :: rest) zk) =
      [⟨some remote_peer, net,
        beBytes 2
          PACKET_TYPE_CONSENSUS_CATCHUP_REQUEST_FINALIZATION_BY_POINT ++
          fin, false⟩] := rfl

/-- Witness for C5 at concrete inputs: peer `9`, networks `[3, 4]`,
finalization point `[5, 6]`. -/
theorem claim_C5_witness :
    handshake_response_callback (.ok [5, 6]) (.Handshake 9 [3, 4] []) =
      [⟨some 9, 3, [0, 7, 5, 6], false⟩] := by
  rw [claim_C5 9 3 [4] [] [5, 6]]
  decide

/-- Counterexample to C5 as stated: a handshake response advertising no
networks triggers no catch-up request at all — `nets.iter().next()` is
`None` and the callback only logs — even though the consensus engine's
finalization point is available. -/
theorem claim_C5_counterexample :
    handshake_response_callback (.ok [5, 6]) (.Handshake 9 [] []) = [] :=
  rfl

end Spec2Proof
